import Mathlib

/-!
# SparseGraph (voxblox_skeleton/src/sparse_graph.cpp)

A shallow embedding of the sparse skeleton graph container and a verification
of its contract.

* `std::map<int64_t, V>` is embedded as `IdMap V`: a list of key/value pairs
  whose keys are strictly ascending (the iteration order of `std::map`).
* ids (`int64_t`) are embedded as `Int`; the two id counters only ever count up
  from zero, so wrap-around is out of reach and is not modelled.
* a look-up that the source performs unchecked (`find(id)->second` on a missing
  id) has no defined result; operations that can reach one return `Option`.
-/

namespace Voxblox

/-! ## Ordered maps keyed by ids -/

namespace IdMap

variable {V W : Type}

/-- Look-up by key in a list of entries: `std::map::find`. -/
def findRaw (k : Int) : List (Int × V) → Option V
  | [] => none
  | (k', v) :: t => if k' = k then some v else findRaw k t

/-- Insert-or-assign in a key-ordered list of entries. -/
def setRaw (k : Int) (v : V) : List (Int × V) → List (Int × V)
  | [] => [(k, v)]
  | (k', v') :: t =>
    if k < k' then (k, v) :: (k', v') :: t
    else if k' = k then (k, v) :: t
    else (k', v') :: setRaw k v t

/-- Removal of the entry with the given key: `std::map::erase`. -/
def eraseRaw (k : Int) : List (Int × V) → List (Int × V)
  | [] => []
  | (k', v') :: t => if k' = k then t else (k', v') :: eraseRaw k t

/-- Keys strictly ascending. -/
def Sorted (l : List (Int × V)) : Prop := l.Pairwise (fun a b => a.1 < b.1)

theorem mem_setRaw {k : Int} {v : V} {l : List (Int × V)} {p : Int × V}
    (h : p ∈ setRaw k v l) : p = (k, v) ∨ p ∈ l := by
  induction l with
  | nil => simp [setRaw] at h; exact Or.inl h
  | cons hd t ih =>
    obtain ⟨k', v'⟩ := hd
    unfold setRaw at h
    split_ifs at h with h1 h2
    · rcases List.mem_cons.1 h with h | h
      · exact Or.inl h
      · exact Or.inr h
    · rcases List.mem_cons.1 h with h | h
      · exact Or.inl h
      · exact Or.inr (List.mem_cons_of_mem _ h)
    · rcases List.mem_cons.1 h with h | h
      · exact Or.inr (h ▸ List.mem_cons_self _ _)
      · rcases ih h with h | h
        · exact Or.inl h
        · exact Or.inr (List.mem_cons_of_mem _ h)

theorem sorted_setRaw (k : Int) (v : V) {l : List (Int × V)} (hs : Sorted l) :
    Sorted (setRaw k v l) := by
  induction l with
  | nil => simp [setRaw, Sorted]
  | cons hd t ih =>
    obtain ⟨k', v'⟩ := hd
    have hs' := List.pairwise_cons.1 hs
    unfold setRaw
    split_ifs with h1 h2
    · refine List.pairwise_cons.2 ⟨?_, hs⟩
      intro p hp
      rcases List.mem_cons.1 hp with hp | hp
      · subst hp; exact h1
      · exact lt_trans h1 (hs'.1 p hp)
    · subst h2
      exact List.pairwise_cons.2 ⟨hs'.1, hs'.2⟩
    · refine List.pairwise_cons.2 ⟨?_, ih hs'.2⟩
      intro p hp
      rcases mem_setRaw hp with hp | hp
      · subst hp
        show k' < k
        omega
      · exact hs'.1 p hp

theorem mem_eraseRaw {k : Int} {l : List (Int × V)} {p : Int × V}
    (h : p ∈ eraseRaw k l) : p ∈ l := by
  induction l with
  | nil => simp [eraseRaw] at h
  | cons hd t ih =>
    obtain ⟨k', v'⟩ := hd
    unfold eraseRaw at h
    split_ifs at h with h1
    · exact List.mem_cons_of_mem _ h
    · rcases List.mem_cons.1 h with h | h
      · exact h ▸ List.mem_cons_self _ _
      · exact List.mem_cons_of_mem _ (ih h)

theorem sorted_eraseRaw (k : Int) {l : List (Int × V)} (hs : Sorted l) :
    Sorted (eraseRaw k l) := by
  induction l with
  | nil => simp [eraseRaw, Sorted]
  | cons hd t ih =>
    obtain ⟨k', v'⟩ := hd
    have hs' := List.pairwise_cons.1 hs
    unfold eraseRaw
    split_ifs with h1
    · exact hs'.2
    · exact List.pairwise_cons.2 ⟨fun p hp => hs'.1 p (mem_eraseRaw hp), ih hs'.2⟩

theorem sorted_mapRaw (f : V → W) {l : List (Int × V)} (hs : Sorted l) :
    Sorted (l.map (fun p => (p.1, f p.2))) := by
  unfold Sorted at *
  rw [List.pairwise_map]
  exact hs

theorem findRaw_eq_none {k : Int} {l : List (Int × V)} (h : ∀ p ∈ l, p.1 ≠ k) :
    findRaw k l = none := by
  induction l with
  | nil => rfl
  | cons hd t ih =>
    obtain ⟨k', v'⟩ := hd
    have h1 : k' ≠ k := h (k', v') (List.mem_cons_self _ _)
    simp only [findRaw, h1, if_false]
    exact ih (fun p hp => h p (List.mem_cons_of_mem _ hp))

theorem findRaw_setRaw_self (k : Int) (v : V) (l : List (Int × V)) :
    findRaw k (setRaw k v l) = some v := by
  induction l with
  | nil => simp [setRaw, findRaw]
  | cons hd t ih =>
    obtain ⟨k', v'⟩ := hd
    unfold setRaw
    split_ifs with h1 h2
    · simp [findRaw]
    · simp [findRaw]
    · simp [findRaw, h2, ih]

theorem findRaw_setRaw_ne {k k0 : Int} (v : V) (l : List (Int × V)) (h : k0 ≠ k) :
    findRaw k0 (setRaw k v l) = findRaw k0 l := by
  induction l with
  | nil => simp [setRaw, findRaw, h.symm]
  | cons hd t ih =>
    obtain ⟨k', v'⟩ := hd
    unfold setRaw
    split_ifs with h1 h2
    · simp [findRaw, h.symm]
    · subst h2
      simp [findRaw, h.symm]
    · simp only [findRaw, ih]

theorem findRaw_eraseRaw_self (k : Int) {l : List (Int × V)} (hs : Sorted l) :
    findRaw k (eraseRaw k l) = none := by
  induction l with
  | nil => rfl
  | cons hd t ih =>
    obtain ⟨k', v'⟩ := hd
    have hs' := List.pairwise_cons.1 hs
    unfold eraseRaw
    split_ifs with h1
    · subst h1
      exact findRaw_eq_none (fun p hp => ne_of_gt (hs'.1 p hp))
    · simp only [findRaw, h1, if_false]
      exact ih hs'.2

theorem findRaw_eraseRaw_ne {k k0 : Int} (l : List (Int × V)) (h : k0 ≠ k) :
    findRaw k0 (eraseRaw k l) = findRaw k0 l := by
  induction l with
  | nil => rfl
  | cons hd t ih =>
    obtain ⟨k', v'⟩ := hd
    unfold eraseRaw
    split_ifs with h1
    · subst h1
      simp [findRaw, h.symm]
    · simp only [findRaw, ih]

theorem findRaw_mapRaw (f : V → W) (k : Int) (l : List (Int × V)) :
    findRaw k (l.map (fun p => (p.1, f p.2))) = (findRaw k l).map f := by
  induction l with
  | nil => rfl
  | cons hd t ih =>
    obtain ⟨k', v'⟩ := hd
    simp only [List.map, findRaw]
    split_ifs with h1
    · rfl
    · exact ih

theorem findRaw_isSome_iff (k : Int) (l : List (Int × V)) :
    (findRaw k l).isSome = true ↔ k ∈ l.map Prod.fst := by
  induction l with
  | nil => simp [findRaw]
  | cons hd t ih =>
    obtain ⟨k', v'⟩ := hd
    simp only [findRaw, List.map, List.mem_cons]
    split_ifs with h1
    · simp [h1]
    · rw [ih]
      constructor
      · exact Or.inr
      · rintro (h | h)
        · exact absurd h.symm h1
        · exact h

end IdMap

/-- An ordered map from ids to values, the embedding of `std::map<int64_t, V>`:
its entries are kept in strictly ascending key order, so every key occurs at most
once and iteration visits the keys in ascending order. -/
structure IdMap (V : Type) where
  entries : List (Int × V)
  sorted : IdMap.Sorted entries

namespace IdMap

variable {V W : Type}

theorem ext_entries {a b : IdMap V} (h : a.entries = b.entries) : a = b := by
  cases a; cases b; cases h; rfl

instance [DecidableEq V] : DecidableEq (IdMap V) := fun a b =>
  decidable_of_iff (a.entries = b.entries) ⟨ext_entries, fun h => h ▸ rfl⟩

/-- The empty map (also the result of `std::map::clear`). -/
def empty : IdMap V := ⟨[], List.Pairwise.nil⟩

/-- Look-up: `find(k)`, `none` standing for `end()`. -/
def find (m : IdMap V) (k : Int) : Option V := findRaw k m.entries

/-- Membership test: `find(k) != end()`. -/
def contains (m : IdMap V) (k : Int) : Bool := (m.find k).isSome

/-- Insert-or-assign: `m[k] = v`. -/
def set (m : IdMap V) (k : Int) (v : V) : IdMap V :=
  ⟨setRaw k v m.entries, sorted_setRaw k v m.sorted⟩

/-- Insertion that keeps an existing entry: `emplace(make_pair(k, v))`. -/
def emplace (m : IdMap V) (k : Int) (v : V) : IdMap V :=
  if m.contains k then m else m.set k v

/-- Access that default-constructs a missing entry: the map effect of
`operator[]`. -/
def touch (m : IdMap V) (k : Int) (dflt : V) : IdMap V :=
  if m.contains k then m else m.set k dflt

/-- In-place update of the value stored under `k` through a reference or an
iterator to it; nothing happens when `k` is absent. -/
def modify (m : IdMap V) (k : Int) (f : V → V) : IdMap V :=
  match m.find k with
  | some v => m.set k (f v)
  | none => m

/-- Removal of a key: `erase`. -/
def erase (m : IdMap V) (k : Int) : IdMap V :=
  ⟨eraseRaw k m.entries, sorted_eraseRaw k m.sorted⟩

/-- In-place update of every value, as done by a loop over the map through
mutable references. -/
def mapValues (m : IdMap V) (f : V → V) : IdMap V :=
  ⟨m.entries.map (fun p => (p.1, f p.2)), sorted_mapRaw f m.sorted⟩

/-- The keys in iteration order. -/
def keys (m : IdMap V) : List Int := m.entries.map Prod.fst

end IdMap

/-! ### Look-up after each map operation -/

namespace IdMap

variable {V : Type}

theorem find_empty (k : Int) : (empty : IdMap V).find k = none := rfl

theorem find_set (m : IdMap V) (k k0 : Int) (v : V) :
    (m.set k v).find k0 = if k0 = k then some v else m.find k0 := by
  unfold find set
  split_ifs with h
  · subst h
    exact findRaw_setRaw_self _ _ _
  · exact findRaw_setRaw_ne _ _ h

theorem find_erase (m : IdMap V) (k k0 : Int) :
    (m.erase k).find k0 = if k0 = k then none else m.find k0 := by
  unfold find erase
  split_ifs with h
  · subst h
    exact findRaw_eraseRaw_self _ m.sorted
  · exact findRaw_eraseRaw_ne _ h

theorem find_modify (m : IdMap V) (k k0 : Int) (f : V → V) :
    (m.modify k f).find k0 = if k0 = k then (m.find k).map f else m.find k0 := by
  unfold modify
  cases hk : m.find k with
  | none =>
    split_ifs with h
    · subst h
      simp [hk]
    · rfl
  | some v =>
    simp only [find_set, Option.map_some']

theorem find_emplace (m : IdMap V) (k k0 : Int) (v : V) :
    (m.emplace k v).find k0 = if k0 = k then some ((m.find k).getD v) else m.find k0 := by
  unfold emplace contains
  cases hk : m.find k with
  | none =>
    simp only [Option.isSome_none, Bool.false_eq_true, if_false, find_set, Option.getD_none]
  | some w =>
    simp only [Option.isSome_some, if_true, Option.getD_some]
    split_ifs with h
    · subst h
      exact hk
    · rfl

theorem find_touch (m : IdMap V) (k k0 : Int) (v : V) :
    (m.touch k v).find k0 = if k0 = k then some ((m.find k).getD v) else m.find k0 :=
  find_emplace m k k0 v

theorem touch_of_find {m : IdMap V} {k : Int} {w : V} (h : m.find k = some w) (v : V) :
    m.touch k v = m := by
  unfold touch contains
  simp [h]

theorem find_mapValues (m : IdMap V) (k : Int) (f : V → V) :
    (m.mapValues f).find k = (m.find k).map f :=
  findRaw_mapRaw f k m.entries

theorem mem_keys_iff (m : IdMap V) (k : Int) : k ∈ m.keys ↔ m.contains k = true :=
  (findRaw_isSome_iff k m.entries).symm

end IdMap

/-! ### Map equality, keys and membership -/

namespace IdMap

variable {V : Type}

theorem mapValues_mapValues (m : IdMap V) (f h : V → V) :
    (m.mapValues f).mapValues h = m.mapValues (fun x => h (f x)) := by
  apply ext_entries
  simp [mapValues, List.map_map, Function.comp_def]

theorem keys_mapValues (m : IdMap V) (f : V → V) : (m.mapValues f).keys = m.keys := by
  simp [keys, mapValues, List.map_map, Function.comp_def]

theorem mem_of_findRaw {k : Int} {v : V} {l : List (Int × V)} (h : findRaw k l = some v) :
    (k, v) ∈ l := by
  induction l with
  | nil => simp [findRaw] at h
  | cons hd t ih =>
    obtain ⟨k', v'⟩ := hd
    simp only [findRaw] at h
    split_ifs at h with h1
    · subst h1
      cases h
      exact List.mem_cons_self _ _
    · exact List.mem_cons_of_mem _ (ih h)

theorem mem_of_find {m : IdMap V} {k : Int} {v : V} (h : m.find k = some v) :
    (k, v) ∈ m.entries := mem_of_findRaw h

theorem keys_pairwise (m : IdMap V) : m.keys.Pairwise (· < ·) := by
  unfold keys
  rw [List.pairwise_map]
  exact m.sorted

theorem ext_raw : ∀ (l1 l2 : List (Int × V)), Sorted l1 → Sorted l2 →
    (∀ k, findRaw k l1 = findRaw k l2) → l1 = l2 := by
  intro l1
  induction l1 with
  | nil =>
    intro l2 _ _ h
    cases l2 with
    | nil => rfl
    | cons hd t =>
      have := h hd.1
      simp [findRaw] at this
  | cons hd1 t1 ih =>
    intro l2 hs1 hs2 h
    obtain ⟨k1, v1⟩ := hd1
    cases l2 with
    | nil =>
      have := h k1
      simp [findRaw] at this
    | cons hd2 t2 =>
      obtain ⟨k2, v2⟩ := hd2
      have hs1' := List.pairwise_cons.1 hs1
      have hs2' := List.pairwise_cons.1 hs2
      have hk : k1 = k2 := by
        rcases lt_trichotomy k1 k2 with hlt | heq | hgt
        · have h1 := h k1
          rw [findRaw_eq_none (l := (k2, v2) :: t2)] at h1
          · simp [findRaw] at h1
          · intro p hp
            rcases List.mem_cons.1 hp with rfl | hp
            · exact ne_of_gt hlt
            · exact ne_of_gt (lt_trans hlt (hs2'.1 p hp))
        · exact heq
        · have h2 := h k2
          rw [findRaw_eq_none (l := (k1, v1) :: t1)] at h2
          · simp [findRaw] at h2
          · intro p hp
            rcases List.mem_cons.1 hp with rfl | hp
            · exact ne_of_gt hgt
            · exact ne_of_gt (lt_trans hgt (hs1'.1 p hp))
      subst hk
      have hv : v1 = v2 := by
        have := h k1
        simpa [findRaw] using this
      subst hv
      have ht : t1 = t2 := by
        apply ih t2 hs1'.2 hs2'.2
        intro k
        by_cases hk : k1 = k
        · subst hk
          rw [findRaw_eq_none (fun p hp => ne_of_gt (hs1'.1 p hp)),
            findRaw_eq_none (fun p hp => ne_of_gt (hs2'.1 p hp))]
        · have := h k
          simpa [findRaw, hk] using this
      rw [ht]

/-- Two maps with the same look-up results are the same map. -/
theorem ext_find {a b : IdMap V} (h : ∀ k, a.find k = b.find k) : a = b :=
  ext_entries (ext_raw _ _ a.sorted b.sorted h)

end IdMap

/-! ## Data model -/

/-- Modelled from the spec: the declaration of `GraphVertex` (the header
`sparse_graph.h` is not among the sources). The fields are the ones the source
file reads and writes, under the names it uses; `P` is the point type, whose
values the graph only copies and hands to a transformation. -/
structure GraphVertex (P : Type) where
  vertex_id : Int
  point : P
  edge_list : List Int
deriving DecidableEq, Repr

/-- Modelled from the spec: the declaration of `GraphEdge` (the header
`sparse_graph.h` is not among the sources), with the fields the source file
reads and writes. -/
structure GraphEdge (P : Type) where
  edge_id : Int
  start_vertex : Int
  end_vertex : Int
  start_point : P
  end_point : P
deriving DecidableEq, Repr

/-- The state of a `SparseGraph` object: its four data members. -/
structure SparseGraph (P : Type) where
  vertex_map_ : IdMap (GraphVertex P)
  edge_map_ : IdMap (GraphEdge P)
  next_vertex_id_ : Int
  next_edge_id_ : Int

instance {P : Type} [DecidableEq P] : DecidableEq (SparseGraph P) := fun a b =>
  decidable_of_iff
    (a.vertex_map_ = b.vertex_map_ ∧ a.edge_map_ = b.edge_map_ ∧
      a.next_vertex_id_ = b.next_vertex_id_ ∧ a.next_edge_id_ = b.next_edge_id_)
    ⟨fun h => by
      cases a; cases b
      obtain ⟨h1, h2, h3, h4⟩ := h
      cases h1; cases h2; cases h3; cases h4; rfl,
     fun h => h ▸ ⟨rfl, rfl, rfl, rfl⟩⟩

/-- Removal of the first occurrence of `id` from an edge list: the loop
`for i: if (edge_list[i] == id) { edge_list.erase(begin() + i); break; }`. -/
def eraseFirst (id : Int) : List Int → List Int
  | [] => []
  | x :: t => if x = id then t else x :: eraseFirst id t

/-- Removal of the first occurrence of `id` when `c` holds, nothing otherwise. -/
def eraseIf (c : Prop) [Decidable c] (id : Int) (l : List Int) : List Int :=
  if c then eraseFirst id l else l

namespace SparseGraph

variable {P : Type}

/-- The constructor `SparseGraph::SparseGraph()`: empty maps, both counters 0. -/
def empty : SparseGraph P :=
  { vertex_map_ := IdMap.empty, edge_map_ := IdMap.empty,
    next_vertex_id_ := 0, next_edge_id_ := 0 }

/-- Embedding of `SparseGraph::addVertex`: returns the allocated id and the new
state. `emplace` does not replace a vertex already stored under the allocated id;
the `vertex_id` field is written through the iterator `emplace` returns. -/
def addVertex (g : SparseGraph P) (vertex : GraphVertex P) : Int × SparseGraph P :=
  let vertex_id := g.next_vertex_id_
  let vm := g.vertex_map_.emplace vertex_id vertex
  let vm := vm.modify vertex_id (fun x => { x with vertex_id := vertex_id })
  (vertex_id, { g with vertex_map_ := vm, next_vertex_id_ := g.next_vertex_id_ + 1 })

/-- Embedding of `SparseGraph::addEdge`: returns the allocated id and the new
state. `dflt` is the default-constructed `GraphVertex` that
`vertex_map_[id]` inserts when `id` is missing (its declaration is not among the
sources). The statements are in source order: emplace the edge, write its
`edge_id`, obtain both vertices by `operator[]`, push the id on the start vertex
and then on the end vertex, then copy the two points into the stored edge. -/
def addEdge (dflt : GraphVertex P) (g : SparseGraph P) (edge : GraphEdge P) :
    Int × SparseGraph P :=
  let edge_id := g.next_edge_id_
  let em := g.edge_map_.emplace edge_id edge
  let em := em.modify edge_id (fun x => { x with edge_id := edge_id })
  let vm := g.vertex_map_.touch edge.start_vertex dflt
  let vm := vm.touch edge.end_vertex dflt
  let vm := vm.modify edge.start_vertex
    (fun x => { x with edge_list := x.edge_list ++ [edge_id] })
  let vm := vm.modify edge.end_vertex
    (fun x => { x with edge_list := x.edge_list ++ [edge_id] })
  let start_point := ((vm.find edge.start_vertex).getD dflt).point
  let end_point := ((vm.find edge.end_vertex).getD dflt).point
  let em := em.modify edge_id (fun x => { x with start_point := start_point })
  let em := em.modify edge_id (fun x => { x with end_point := end_point })
  (edge_id, { g with vertex_map_ := vm, edge_map_ := em,
                     next_edge_id_ := g.next_edge_id_ + 1 })

/-- Embedding of `SparseGraph::hasVertex`. -/
def hasVertex (g : SparseGraph P) (id : Int) : Bool := g.vertex_map_.contains id

/-- Embedding of `SparseGraph::hasEdge`. -/
def hasEdge (g : SparseGraph P) (id : Int) : Bool := g.edge_map_.contains id

/-- Embedding of `SparseGraph::getVertex`: `vertex_map_.find(id)->second`, which
has no defined result (`none`) when `id` is missing. -/
def getVertex (g : SparseGraph P) (id : Int) : Option (GraphVertex P) :=
  g.vertex_map_.find id

/-- Embedding of `SparseGraph::getEdge`: `edge_map_.find(id)->second`, which has
no defined result (`none`) when `id` is missing. -/
def getEdge (g : SparseGraph P) (id : Int) : Option (GraphEdge P) :=
  g.edge_map_.find id

/-- Embedding of `SparseGraph::clear`. -/
def clear (_g : SparseGraph P) : SparseGraph P :=
  { vertex_map_ := IdMap.empty, edge_map_ := IdMap.empty,
    next_vertex_id_ := 0, next_edge_id_ := 0 }

/-- Embedding of `SparseGraph::getAllVertexIds`: the keys are pushed, in map
order, onto the caller's vector `vertex_ids`. -/
def getAllVertexIds (g : SparseGraph P) (vertex_ids : List Int) : List Int :=
  vertex_ids ++ g.vertex_map_.keys

/-- Embedding of `SparseGraph::getAllEdgeIds`. -/
def getAllEdgeIds (g : SparseGraph P) (edge_ids : List Int) : List Int :=
  edge_ids ++ g.edge_map_.keys

/-- Embedding of `SparseGraph::removeEdge`. A missing `edge_id` is a no-op.
Otherwise both endpoint vertices are fetched with the unchecked `getVertex`
(no defined result when one is missing), the first occurrence of `edge_id` is
erased from the start vertex's list and then from the end vertex's list, and
the edge is erased. -/
def removeEdge (g : SparseGraph P) (edge_id : Int) : Option (SparseGraph P) :=
  match g.edge_map_.find edge_id with
  | none => some g
  | some edge =>
    match g.getVertex edge.start_vertex, g.getVertex edge.end_vertex with
    | some _, some _ =>
      let vm := g.vertex_map_.modify edge.start_vertex
        (fun x => { x with edge_list := eraseFirst edge_id x.edge_list })
      let vm := vm.modify edge.end_vertex
        (fun x => { x with edge_list := eraseFirst edge_id x.edge_list })
      some { g with vertex_map_ := vm, edge_map_ := g.edge_map_.erase edge_id }
    | _, _ => none

/-- The storage of the vector that `removeVertex` is iterating, after an
`erase` on the vertex `v` that owns it. `std::vector::erase` moves the elements
behind the erased position one slot down and shrinks the size by one without
touching the slot that held the last element; so the storage afterwards is the
new contents of the list followed by the old storage from the new size on.
When the list of `v` did not change this is the identity. -/
def resync (vm : IdMap (GraphVertex P)) (v : Int) (mem : List Int) : List Int :=
  match vm.find v with
  | some x => x.edge_list ++ mem.drop x.edge_list.length
  | none => mem

/-- The call `removeEdge(edge_id)` as made from inside the loop of
`removeVertex(v)`: the same statements as `removeEdge`, and in addition the
storage `mem` of the edge list of `v`, which the caller is iterating, is
followed through the two erasures. -/
def removeEdgeTracked (v : Int) (g : SparseGraph P) (mem : List Int) (edge_id : Int) :
    Option (SparseGraph P × List Int) :=
  match g.edge_map_.find edge_id with
  | none => some (g, mem)
  | some edge =>
    match g.getVertex edge.start_vertex, g.getVertex edge.end_vertex with
    | some _, some _ =>
      let vm := g.vertex_map_.modify edge.start_vertex
        (fun x => { x with edge_list := eraseFirst edge_id x.edge_list })
      let mem := resync vm v mem
      let vm := vm.modify edge.end_vertex
        (fun x => { x with edge_list := eraseFirst edge_id x.edge_list })
      let mem := resync vm v mem
      some ({ g with vertex_map_ := vm, edge_map_ := g.edge_map_.erase edge_id }, mem)
    | _, _ => none

/-- The loop `for (int64_t edge_id : vertex.edge_list) removeEdge(edge_id);` of
`removeVertex(v)`. `vertex` is a reference to the stored vertex, so the loop
walks the very vector that `removeEdge` erases from. The range-for fixes its
begin and end positions before the first iteration: it reads the slots
`i = 0 .. n-1` of the storage, `n` being the length at loop entry, whatever the
erasures do to the contents meanwhile. The first argument counts the slots
still to visit, `i` is the current slot and `mem` the current storage. (The
language standard leaves a walk over a vector that is erased from undefined;
this is what the usual contiguous implementation executes.) -/
def removeVertexLoop (v : Int) :
    Nat → Nat → SparseGraph P → List Int → Option (SparseGraph P)
  | 0, _, g, _ => some g
  | n + 1, i, g, mem =>
    match mem[i]? with
    | none => none
    | some edge_id =>
      match removeEdgeTracked v g mem edge_id with
      | none => none
      | some (g', mem') => removeVertexLoop v n (i + 1) g' mem'

/-- Embedding of `SparseGraph::removeVertex`. A missing `vertex_id` is a no-op.
Otherwise the loop over the vertex's edge list runs and then the vertex is
erased. -/
def removeVertex (g : SparseGraph P) (vertex_id : Int) : Option (SparseGraph P) :=
  match g.vertex_map_.find vertex_id with
  | none => some g
  | some vertex =>
    match removeVertexLoop vertex_id vertex.edge_list.length 0 g vertex.edge_list with
    | none => none
    | some g' => some { g' with vertex_map_ := g'.vertex_map_.erase vertex_id }

/-- The scan of `areVerticesDirectlyConnected` over the edge list of the first
vertex; `getEdge` is unchecked, so an id without a stored edge gives no
defined result. -/
def connectedScan (g : SparseGraph P) (vertex_id_2 : Int) : List Int → Option Bool
  | [] => some false
  | edge_id :: rest =>
    match g.getEdge edge_id with
    | none => none
    | some edge =>
      if edge.start_vertex = vertex_id_2 ∨ edge.end_vertex = vertex_id_2 then some true
      else connectedScan g vertex_id_2 rest

/-- Embedding of `SparseGraph::areVerticesDirectlyConnected`. -/
def areVerticesDirectlyConnected (g : SparseGraph P) (vertex_id_1 vertex_id_2 : Int) :
    Option Bool :=
  match g.getVertex vertex_id_1 with
  | none => none
  | some vertex_1 => connectedScan g vertex_id_2 vertex_1.edge_list

/-- Embedding of `SparseGraph::addSerializedVertex`. -/
def addSerializedVertex (g : SparseGraph P) (vertex : GraphVertex P) : SparseGraph P :=
  { g with vertex_map_ := g.vertex_map_.set vertex.vertex_id vertex }

/-- Embedding of `SparseGraph::addSerializedEdge`. -/
def addSerializedEdge (g : SparseGraph P) (edge : GraphEdge P) : SparseGraph P :=
  { g with edge_map_ := g.edge_map_.set edge.edge_id edge }

/-- Embedding of `SparseGraph::transformFrame`; the transformation acts on
points as the function `T`. -/
def transformFrame (g : SparseGraph P) (T : P → P) : SparseGraph P :=
  { g with
    vertex_map_ := g.vertex_map_.mapValues (fun x => { x with point := T x.point })
    edge_map_ := g.edge_map_.mapValues
      (fun x => { x with start_point := T x.start_point, end_point := T x.end_point }) }

end SparseGraph

/-! ## Sequences of calls -/

/-- A call of one of the mutating operations of the graph, with its arguments. -/
inductive Op (P : Type) where
  | addVertex (vertex : GraphVertex P)
  | addEdge (edge : GraphEdge P)
  | removeVertex (id : Int)
  | removeEdge (id : Int)
  | transformFrame (T : P → P)
  | clear
  | addSerializedVertex (vertex : GraphVertex P)
  | addSerializedEdge (edge : GraphEdge P)

/-- What a call hands back: the id allocated by `addVertex` or by `addEdge`, or
nothing. -/
inductive Ret where
  | vertexId (id : Int)
  | edgeId (id : Int)
  | void
deriving DecidableEq, Repr

/-- The vertex id a call returned, if it returned one. -/
def Ret.vertexId? : Ret → Option Int
  | .vertexId id => some id
  | _ => none

/-- The edge id a call returned, if it returned one. -/
def Ret.edgeId? : Ret → Option Int
  | .edgeId id => some id
  | _ => none

/-- Whether the call is `clear()`. -/
def Op.isClear {P : Type} : Op P → Bool
  | .clear => true
  | _ => false

/-- Executes one call: the state afterwards and what the call returned; `none`
when the call has no defined result. -/
def Op.call {P : Type} (dflt : GraphVertex P) (g : SparseGraph P) :
    Op P → Option (SparseGraph P × Ret)
  | .addVertex vertex => some ((g.addVertex vertex).2, .vertexId (g.addVertex vertex).1)
  | .addEdge edge => some ((g.addEdge dflt edge).2, .edgeId (g.addEdge dflt edge).1)
  | .removeVertex id => (g.removeVertex id).map (fun g' => (g', .void))
  | .removeEdge id => (g.removeEdge id).map (fun g' => (g', .void))
  | .transformFrame T => some (g.transformFrame T, .void)
  | .clear => some (g.clear, .void)
  | .addSerializedVertex vertex => some (g.addSerializedVertex vertex, .void)
  | .addSerializedEdge edge => some (g.addSerializedEdge edge, .void)

/-- Executes a sequence of calls from state `g`: the final state and the list of
what the calls returned, in call order. -/
def runOps {P : Type} (dflt : GraphVertex P) :
    List (Op P) → SparseGraph P → Option (SparseGraph P × List Ret)
  | [], g => some (g, [])
  | op :: ops, g =>
    match op.call dflt g with
    | none => none
    | some (g', r) =>
      match runOps dflt ops g' with
      | none => none
      | some (g'', rs) => some (g'', r :: rs)

/-- The calls a claim admits in a state: a predicate on the state and the call. -/
abbrev Calls (P : Type) := SparseGraph P → Op P → Prop

/-- The states reached from the empty graph by calls that `allowed` admits and
that return. -/
inductive Reachable {P : Type} (dflt : GraphVertex P) (allowed : Calls P) :
    SparseGraph P → Prop where
  | init : Reachable dflt allowed SparseGraph.empty
  | step {g g' : SparseGraph P} {r : Ret} (op : Op P) :
      Reachable dflt allowed g → allowed g op → op.call dflt g = some (g', r) →
      Reachable dflt allowed g'

/-- `addEdge` is called with endpoints that are stored vertices. -/
def Op.endpointsExist {P : Type} (g : SparseGraph P) : Op P → Prop
  | .addEdge edge => g.hasVertex edge.start_vertex = true ∧ g.hasVertex edge.end_vertex = true
  | _ => True

/-- `addVertex` is called with a vertex whose edge list is empty. -/
def Op.freshVertex {P : Type} : Op P → Prop
  | .addVertex vertex => vertex.edge_list = []
  | _ => True

/-- The call is one of `addVertex`, `addEdge`, `removeEdge`, `removeVertex`,
`transformFrame`, `clear`. -/
def Op.isEdit {P : Type} : Op P → Prop
  | .addSerializedVertex _ => False
  | .addSerializedEdge _ => False
  | _ => True

/-- The call is one of `addVertex`, `addEdge`, `removeEdge`, `removeVertex`. -/
def Op.isStructural {P : Type} : Op P → Prop
  | .addVertex _ => True
  | .addEdge _ => True
  | .removeEdge _ => True
  | .removeVertex _ => True
  | _ => False

/-- Calls of `addVertex`, `addEdge` (with existing endpoints), `removeEdge`,
`removeVertex`, `transformFrame` and `clear`. -/
def editCalls (P : Type) : Calls P := fun g op => op.isEdit ∧ op.endpointsExist g

/-- The calls of `editCalls` in which `addVertex` is given an empty edge list. -/
def freshEditCalls (P : Type) : Calls P :=
  fun g op => op.isEdit ∧ op.endpointsExist g ∧ op.freshVertex

/-- Calls of `addVertex`, `addEdge` (with existing endpoints), `removeEdge` and
`removeVertex`. -/
def structuralCalls (P : Type) : Calls P := fun g op => op.isStructural ∧ op.endpointsExist g

/-- The calls of `structuralCalls` in which `addVertex` is given an empty edge
list. -/
def freshStructuralCalls (P : Type) : Calls P :=
  fun g op => op.isStructural ∧ op.endpointsExist g ∧ op.freshVertex

/-- The call is one of `addVertex`, `addEdge`, `removeEdge`. -/
def Op.isBuild {P : Type} : Op P → Prop
  | .addVertex _ => True
  | .addEdge _ => True
  | .removeEdge _ => True
  | _ => False

/-- Calls of `addVertex`, `addEdge` (with existing endpoints) and `removeEdge`. -/
def buildCalls (P : Type) : Calls P := fun g op => op.isBuild ∧ op.endpointsExist g

/-- The calls of `buildCalls` in which `addVertex` is given an empty edge list. -/
def freshBuildCalls (P : Type) : Calls P :=
  fun g op => op.isBuild ∧ op.endpointsExist g ∧ op.freshVertex

/-! ## Sample graphs -/

/-- The default-constructed vertex of the samples. -/
def sampleDefault : GraphVertex Int := { vertex_id := -1, point := 0, edge_list := [] }

/-- A vertex as a caller passes it to `addVertex`: a point, no edges yet. -/
def sampleVertex (p : Int) : GraphVertex Int := { vertex_id := -1, point := p, edge_list := [] }

/-- An edge as a caller passes it to `addEdge`: the two endpoint ids. -/
def sampleEdge (a b : Int) : GraphEdge Int :=
  { edge_id := -1, start_vertex := a, end_vertex := b, start_point := 0, end_point := 0 }

/-- Two vertices `0` and `1`, no edge. -/
def twoVertices : SparseGraph Int :=
  ((SparseGraph.empty.addVertex (sampleVertex 10)).2.addVertex (sampleVertex 11)).2

/-- The scenario of the specification: vertices `0`, `1` and the edge `0` between
them. -/
def oneEdge : SparseGraph Int := (twoVertices.addEdge sampleDefault (sampleEdge 0 1)).2

/-- The calls that build a star: vertices `0..3`, then the edges `0`, `1`, `2`
from vertex `0` to the vertices `1`, `2`, `3`. -/
def starOps : List (Op Int) :=
  [.addVertex (sampleVertex 10), .addVertex (sampleVertex 11), .addVertex (sampleVertex 12),
   .addVertex (sampleVertex 13), .addEdge (sampleEdge 0 1), .addEdge (sampleEdge 0 2),
   .addEdge (sampleEdge 0 3)]

/-- The star that `starOps` builds from the empty graph. -/
def star : SparseGraph Int :=
  let g : SparseGraph Int := SparseGraph.empty
  let g := (g.addVertex (sampleVertex 10)).2
  let g := (g.addVertex (sampleVertex 11)).2
  let g := (g.addVertex (sampleVertex 12)).2
  let g := (g.addVertex (sampleVertex 13)).2
  let g := (g.addEdge sampleDefault (sampleEdge 0 1)).2
  let g := (g.addEdge sampleDefault (sampleEdge 0 2)).2
  (g.addEdge sampleDefault (sampleEdge 0 3)).2

/-- A graph loaded with one serialized vertex under id `0`; the vertex counter
is still `0`. -/
def loadedZero : SparseGraph Int :=
  SparseGraph.empty.addSerializedVertex { vertex_id := 0, point := 7, edge_list := [] }

/-- A vertex value whose edge list names an edge `7` the caller made up. -/
def strayVertex : GraphVertex Int := { vertex_id := -1, point := 9, edge_list := [7] }

/-- The state after `addVertex(strayVertex)` on the empty graph. -/
def strayGraph : SparseGraph Int := (SparseGraph.empty.addVertex strayVertex).2

/-- Vertex `0` is added with the edge list `[0]`, then vertices `1` and `2`,
then the edge `0` from `1` to `2`. -/
def skewGraph : SparseGraph Int :=
  let g : SparseGraph Int := SparseGraph.empty
  let g := (g.addVertex { vertex_id := -1, point := 10, edge_list := [0] }).2
  let g := (g.addVertex (sampleVertex 11)).2
  let g := (g.addVertex (sampleVertex 12)).2
  (g.addEdge sampleDefault (sampleEdge 1 2)).2

/-- A sequence mixing allocations with a serialized insert, a transform and
removals. -/
def mixedOps : List (Op Int) :=
  [.addVertex (sampleVertex 10), .addSerializedVertex (sampleVertex 5),
   .addVertex (sampleVertex 11), .addEdge (sampleEdge 0 1), .removeEdge 0,
   .transformFrame (fun p => p + 1), .addEdge (sampleEdge 1 0), .removeVertex 0,
   .addVertex (sampleVertex 12), .addEdge (sampleEdge 1 2)]

/-- An edge loaded under id `0` into the empty graph, whose counters stay `0`. -/
def loadedEdge : SparseGraph Int :=
  SparseGraph.empty.addSerializedEdge
    { edge_id := 0, start_vertex := 5, end_vertex := 6, start_point := 0, end_point := 0 }

/-! ## Consistency of the adjacency lists -/

/-- How many ends of edge `e` are the vertex `u`: 0, 1, or 2 for a self-loop. -/
def GraphEdge.ends {P : Type} (e : GraphEdge P) (u : Int) : Nat :=
  (if u = e.start_vertex then 1 else 0) + (if u = e.end_vertex then 1 else 0)

/-- How many ends of the edge stored under `e` are the vertex `u`; 0 when no
edge is stored under `e`. -/
def SparseGraph.links {P : Type} (g : SparseGraph P) (u e : Int) : Nat :=
  match g.edge_map_.find e with
  | none => 0
  | some x => x.ends u

/-- The adjacency lists agree with the edge store: the list of every stored
vertex `u` holds each edge id exactly once per end of that edge that is `u`
(so not at all when no such edge is stored), and the ids in use lie below the
counters. -/
structure SparseGraph.WellLinked {P : Type} (g : SparseGraph P) : Prop where
  adj : ∀ u x, g.vertex_map_.find u = some x → ∀ e, x.edge_list.count e = g.links u e
  vertex_below : ∀ u x, g.vertex_map_.find u = some x → u < g.next_vertex_id_
  edge_below : ∀ e x, g.edge_map_.find e = some x → e < g.next_edge_id_
  ends_below : ∀ e x, g.edge_map_.find e = some x →
    x.start_vertex < g.next_vertex_id_ ∧ x.end_vertex < g.next_vertex_id_

/-- Every stored edge has both its endpoints in the vertex store. -/
def SparseGraph.EndpointsStored {P : Type} (g : SparseGraph P) : Prop :=
  ∀ e y, g.edge_map_.find e = some y →
    g.hasVertex y.start_vertex = true ∧ g.hasVertex y.end_vertex = true

/-- Every stored edge caches the points of its two endpoint vertices: its start
vertex is stored and has the point `start_point`, its end vertex is stored and
has the point `end_point`. -/
def SparseGraph.CacheConsistent {P : Type} (g : SparseGraph P) : Prop :=
  ∀ e y, g.getEdge e = some y →
    (g.getVertex y.start_vertex).map (fun x => x.point) = some y.start_point ∧
    (g.getVertex y.end_vertex).map (fun x => x.point) = some y.end_point

/-- Some stored edge has an end at `a` and an end at `b`. -/
def SparseGraph.joined {P : Type} (g : SparseGraph P) (a b : Int) : Prop :=
  ∃ e y, g.edge_map_.find e = some y ∧
    (y.start_vertex = a ∨ y.end_vertex = a) ∧ (y.start_vertex = b ∨ y.end_vertex = b)

namespace SparseGraph

variable {P : Type}

/-! ## The effect of the single operations -/

theorem addVertex_fst (g : SparseGraph P) (v : GraphVertex P) :
    (g.addVertex v).1 = g.next_vertex_id_ := rfl

theorem addVertex_find (g : SparseGraph P) (v : GraphVertex P) (k : Int) :
    (g.addVertex v).2.vertex_map_.find k =
      if k = g.next_vertex_id_ then
        some { (g.vertex_map_.find g.next_vertex_id_).getD v with
               vertex_id := g.next_vertex_id_ }
      else g.vertex_map_.find k := by
  simp only [addVertex, IdMap.find_modify, IdMap.find_emplace]
  split_ifs with h
  · simp
  · rfl

/-- The vertex map after `addEdge` when both endpoints are stored: every list
gets the new id once for each end of the edge that the vertex is. -/
theorem addEdge_vfind (dflt : GraphVertex P) (g : SparseGraph P) (e : GraphEdge P)
    {s t : GraphVertex P}
    (hs : g.vertex_map_.find e.start_vertex = some s)
    (ht : g.vertex_map_.find e.end_vertex = some t) (k : Int) :
    (g.addEdge dflt e).2.vertex_map_.find k =
      (g.vertex_map_.find k).map (fun x =>
        { x with edge_list := x.edge_list
            ++ (if k = e.start_vertex then [g.next_edge_id_] else [])
            ++ (if k = e.end_vertex then [g.next_edge_id_] else []) }) := by
  simp only [addEdge, IdMap.touch_of_find hs, IdMap.touch_of_find ht, IdMap.find_modify]
  by_cases h1 : k = e.start_vertex <;> by_cases h2 : k = e.end_vertex
  · subst h1
    have h3 : e.end_vertex = e.start_vertex := h2.symm
    simp [h3, hs]
  · subst h1
    simp [h2, hs]
  · subst h2
    simp [h1, ht]
  · cases h : g.vertex_map_.find k <;> simp [h1, h2, h]

/-- The edge map after `addEdge` when both endpoints are stored and the
allocated id is free. -/
theorem addEdge_efind (dflt : GraphVertex P) (g : SparseGraph P) (e : GraphEdge P)
    {s t : GraphVertex P}
    (hs : g.vertex_map_.find e.start_vertex = some s)
    (ht : g.vertex_map_.find e.end_vertex = some t)
    (hfree : g.edge_map_.find g.next_edge_id_ = none) (k : Int) :
    (g.addEdge dflt e).2.edge_map_.find k =
      if k = g.next_edge_id_ then
        some { edge_id := g.next_edge_id_, start_vertex := e.start_vertex,
               end_vertex := e.end_vertex, start_point := s.point, end_point := t.point }
      else g.edge_map_.find k := by
  have hvs : (((g.addEdge dflt e).2.vertex_map_.find e.start_vertex).getD dflt).point
      = s.point := by
    rw [addEdge_vfind dflt g e hs ht, hs]; rfl
  have hvt : (((g.addEdge dflt e).2.vertex_map_.find e.end_vertex).getD dflt).point
      = t.point := by
    rw [addEdge_vfind dflt g e hs ht, ht]; rfl
  have hem : (g.addEdge dflt e).2.edge_map_ =
      (((g.edge_map_.emplace g.next_edge_id_ e).modify g.next_edge_id_
          (fun x => { x with edge_id := g.next_edge_id_ })).modify g.next_edge_id_
          (fun x => { x with start_point :=
            (((g.addEdge dflt e).2.vertex_map_.find e.start_vertex).getD dflt).point })).modify
          g.next_edge_id_
          (fun x => { x with end_point :=
            (((g.addEdge dflt e).2.vertex_map_.find e.end_vertex).getD dflt).point }) := rfl
  rw [hem, hvs, hvt]
  simp only [IdMap.find_modify, IdMap.find_emplace, hfree]
  by_cases h : k = g.next_edge_id_
  · simp [h]
  · simp [h]

theorem addEdge_fst (dflt : GraphVertex P) (g : SparseGraph P) (e : GraphEdge P) :
    (g.addEdge dflt e).1 = g.next_edge_id_ := rfl

theorem addEdge_next_edge_id (dflt : GraphVertex P) (g : SparseGraph P) (e : GraphEdge P) :
    (g.addEdge dflt e).2.next_edge_id_ = g.next_edge_id_ + 1 := rfl

theorem addEdge_next_vertex_id (dflt : GraphVertex P) (g : SparseGraph P)
    (e : GraphEdge P) :
    (g.addEdge dflt e).2.next_vertex_id_ = g.next_vertex_id_ := rfl

/-- The state `removeEdge` produces for a stored edge with stored endpoints. -/
def removeEdgeResult (g : SparseGraph P) (edge_id : Int) (edge : GraphEdge P) :
    SparseGraph P :=
  { g with
    vertex_map_ := (g.vertex_map_.modify edge.start_vertex
        (fun x => { x with edge_list := eraseFirst edge_id x.edge_list })).modify
        edge.end_vertex (fun x => { x with edge_list := eraseFirst edge_id x.edge_list })
    edge_map_ := g.edge_map_.erase edge_id }

theorem removeEdge_of_missing {g : SparseGraph P} {id : Int}
    (h : g.edge_map_.find id = none) : g.removeEdge id = some g := by
  simp [removeEdge, h]

theorem removeEdge_of_stored {g : SparseGraph P} {id : Int} {e : GraphEdge P}
    {s t : GraphVertex P} (he : g.edge_map_.find id = some e)
    (hs : g.vertex_map_.find e.start_vertex = some s)
    (ht : g.vertex_map_.find e.end_vertex = some t) :
    g.removeEdge id = some (removeEdgeResult g id e) := by
  simp [removeEdge, he, getVertex, hs, ht, removeEdgeResult]

/-- A call of `removeEdge` that returns either found nothing to do or found the
edge and both its endpoints. -/
theorem removeEdge_cases {g g' : SparseGraph P} {id : Int}
    (h : g.removeEdge id = some g') :
    (g.edge_map_.find id = none ∧ g' = g) ∨
    ∃ e s t, g.edge_map_.find id = some e ∧ g.vertex_map_.find e.start_vertex = some s ∧
      g.vertex_map_.find e.end_vertex = some t ∧ g' = removeEdgeResult g id e := by
  cases he : g.edge_map_.find id with
  | none =>
    rw [removeEdge_of_missing he] at h
    exact Or.inl ⟨rfl, (Option.some.inj h).symm⟩
  | some e =>
    right
    cases hs : g.vertex_map_.find e.start_vertex with
    | none => simp [removeEdge, he, getVertex, hs] at h
    | some s =>
      cases ht : g.vertex_map_.find e.end_vertex with
      | none => simp [removeEdge, he, getVertex, hs, ht] at h
      | some t =>
        rw [removeEdge_of_stored he hs ht] at h
        exact ⟨e, s, t, rfl, hs, ht, (Option.some.inj h).symm⟩

theorem removeEdgeResult_efind (g : SparseGraph P) (id : Int) (e : GraphEdge P) (k : Int) :
    (removeEdgeResult g id e).edge_map_.find k =
      if k = id then none else g.edge_map_.find k := by
  simp only [removeEdgeResult, IdMap.find_erase]

theorem removeEdgeResult_vfind (g : SparseGraph P) (id : Int) (e : GraphEdge P) (k : Int) :
    (removeEdgeResult g id e).vertex_map_.find k =
      (g.vertex_map_.find k).map (fun x =>
        { x with edge_list :=
            eraseIf (k = e.end_vertex) id (eraseIf (k = e.start_vertex) id x.edge_list) })
    := by
  simp only [removeEdgeResult, IdMap.find_modify, eraseIf]
  by_cases h1 : k = e.start_vertex <;> by_cases h2 : k = e.end_vertex
  · subst h1
    have h3 : e.end_vertex = e.start_vertex := h2.symm
    cases h : g.vertex_map_.find e.start_vertex <;> simp [h3, h]
  · subst h1
    cases h : g.vertex_map_.find e.start_vertex <;> simp [h2, h]
  · subst h2
    cases h : g.vertex_map_.find e.end_vertex <;> simp [h1, h]
  · cases h : g.vertex_map_.find k <;> simp [h1, h2, h]

theorem eraseFirst_eq_erase (id : Int) (l : List Int) : eraseFirst id l = l.erase id := by
  induction l with
  | nil => rfl
  | cons x t ih =>
    unfold eraseFirst
    by_cases h : x = id
    · subst h
      simp
    · rw [if_neg h, ih, List.erase_cons_tail]
      simpa using h

theorem hasVertex_eq_false_iff (g : SparseGraph P) (id : Int) :
    g.hasVertex id = false ↔ g.vertex_map_.find id = none := by
  unfold hasVertex IdMap.contains
  cases g.vertex_map_.find id <;> simp

theorem hasEdge_eq_false_iff (g : SparseGraph P) (id : Int) :
    g.hasEdge id = false ↔ g.edge_map_.find id = none := by
  unfold hasEdge IdMap.contains
  cases g.edge_map_.find id <;> simp

theorem hasVertex_eq_true_iff (g : SparseGraph P) (id : Int) :
    g.hasVertex id = true ↔ ∃ x, g.vertex_map_.find id = some x := by
  unfold hasVertex IdMap.contains
  cases g.vertex_map_.find id <;> simp

theorem hasEdge_eq_true_iff (g : SparseGraph P) (id : Int) :
    g.hasEdge id = true ↔ ∃ x, g.edge_map_.find id = some x := by
  unfold hasEdge IdMap.contains
  cases g.edge_map_.find id <;> simp

theorem removeVertex_of_missing {g : SparseGraph P} {id : Int}
    (h : g.vertex_map_.find id = none) : g.removeVertex id = some g := by
  simp [removeVertex, h]

/-- The instrumented `removeEdge` of the `removeVertex` loop acts on the graph
exactly as `removeEdge`. -/
theorem removeEdgeTracked_fst (v : Int) (g : SparseGraph P) (mem : List Int) (id : Int) :
    (removeEdgeTracked v g mem id).map Prod.fst = g.removeEdge id := by
  unfold removeEdgeTracked removeEdge
  cases g.edge_map_.find id with
  | none => rfl
  | some e =>
    simp only
    cases g.getVertex e.start_vertex with
    | none => rfl
    | some s =>
      cases g.getVertex e.end_vertex with
      | none => rfl
      | some t => rfl

/-- Whatever every returning `removeEdge` call preserves, the loop of
`removeVertex` preserves. -/
theorem removeVertexLoop_preserves (Q : SparseGraph P → Prop)
    (hQ : ∀ g id g', Q g → g.removeEdge id = some g' → Q g') (v : Int) :
    ∀ (n i : Nat) (g : SparseGraph P) (mem : List Int) (g' : SparseGraph P),
      removeVertexLoop v n i g mem = some g' → Q g → Q g' := by
  intro n
  induction n with
  | zero =>
    intro i g mem g' h hq
    simp only [removeVertexLoop] at h
    exact (Option.some.inj h) ▸ hq
  | succ n ih =>
    intro i g mem g' h hq
    simp only [removeVertexLoop] at h
    cases hm : mem[i]? with
    | none => simp [hm] at h
    | some id =>
      simp only [hm] at h
      have hfst := removeEdgeTracked_fst v g mem id
      cases ht : removeEdgeTracked v g mem id with
      | none => simp [ht] at h
      | some r =>
        obtain ⟨g1, mem1⟩ := r
        simp only [ht] at h
        rw [ht] at hfst
        exact ih (i + 1) g1 mem1 g' h (hQ g id g1 hq hfst.symm)

theorem removeEdge_counters {g g' : SparseGraph P} {id : Int}
    (h : g.removeEdge id = some g') :
    g'.next_vertex_id_ = g.next_vertex_id_ ∧ g'.next_edge_id_ = g.next_edge_id_ := by
  rcases removeEdge_cases h with ⟨_, rfl⟩ | ⟨e, s, t, _, _, _, rfl⟩
  · exact ⟨rfl, rfl⟩
  · exact ⟨rfl, rfl⟩

/-- A returning `removeVertex` call on a stored vertex ran the loop to its end
and then erased the vertex. -/
theorem removeVertex_cases {g g' : SparseGraph P} {id : Int}
    (h : g.removeVertex id = some g') :
    (g.vertex_map_.find id = none ∧ g' = g) ∨
    ∃ x g1, g.vertex_map_.find id = some x ∧
      removeVertexLoop id x.edge_list.length 0 g x.edge_list = some g1 ∧
      g' = { g1 with vertex_map_ := g1.vertex_map_.erase id } := by
  cases hx : g.vertex_map_.find id with
  | none =>
    rw [removeVertex_of_missing hx] at h
    exact Or.inl ⟨rfl, (Option.some.inj h).symm⟩
  | some x =>
    right
    simp only [removeVertex, hx] at h
    cases hl : removeVertexLoop id x.edge_list.length 0 g x.edge_list with
    | none => simp [hl] at h
    | some g1 =>
      simp only [hl] at h
      exact ⟨x, g1, rfl, hl, (Option.some.inj h).symm⟩

theorem removeVertex_counters {g g' : SparseGraph P} {id : Int}
    (h : g.removeVertex id = some g') :
    g'.next_vertex_id_ = g.next_vertex_id_ ∧ g'.next_edge_id_ = g.next_edge_id_ := by
  rcases removeVertex_cases h with ⟨_, rfl⟩ | ⟨x, g1, _, hl, rfl⟩
  · exact ⟨rfl, rfl⟩
  · exact removeVertexLoop_preserves
      (fun g0 => g0.next_vertex_id_ = g.next_vertex_id_ ∧ g0.next_edge_id_ = g.next_edge_id_)
      (fun g0 id0 g0' hq h0 => by
        have := removeEdge_counters h0
        exact ⟨this.1.trans hq.1, this.2.trans hq.2⟩)
      id _ _ g _ g1 hl ⟨rfl, rfl⟩

/-! ### Preservation of the adjacency consistency -/

theorem count_push (a n : Int) (c : Prop) [Decidable c] :
    List.count a (if c then [n] else []) = if c ∧ n = a then 1 else 0 := by
  by_cases hc : c <;> by_cases hn : n = a <;>
    simp [hc, hn, List.count_cons, List.count_nil]

theorem wellLinked_empty : (empty : SparseGraph P).WellLinked where
  adj := fun u x h => by simp [empty, IdMap.find_empty] at h
  vertex_below := fun u x h => by simp [empty, IdMap.find_empty] at h
  edge_below := fun e x h => by simp [empty, IdMap.find_empty] at h
  ends_below := fun e x h => by simp [empty, IdMap.find_empty] at h

theorem links_eq_zero_of_below {g : SparseGraph P} (hg : g.WellLinked) {u : Int}
    (hu : g.next_vertex_id_ ≤ u) (e : Int) : g.links u e = 0 := by
  unfold links
  cases he : g.edge_map_.find e with
  | none => rfl
  | some x =>
    have := hg.ends_below e x he
    have h1 : u ≠ x.start_vertex := by omega
    have h2 : u ≠ x.end_vertex := by omega
    simp [GraphEdge.ends, h1, h2]

theorem wellLinked_addVertex {g : SparseGraph P} (hg : g.WellLinked) (v : GraphVertex P)
    (hv : v.edge_list = []) : (g.addVertex v).2.WellLinked := by
  have hfree : g.vertex_map_.find g.next_vertex_id_ = none := by
    cases h : g.vertex_map_.find g.next_vertex_id_ with
    | none => rfl
    | some x => exact absurd (hg.vertex_below _ x h) (lt_irrefl _)
  have hlinks : ∀ u e, (g.addVertex v).2.links u e = g.links u e := fun _ _ => rfl
  refine ⟨?_, ?_, ?_, ?_⟩
  · intro u x hx e
    rw [addVertex_find] at hx
    rw [hlinks]
    split_ifs at hx with h
    · subst h
      rw [hfree] at hx
      simp only [Option.getD_none, Option.some.injEq] at hx
      subst hx
      rw [links_eq_zero_of_below hg (le_refl _)]
      simp [hv]
    · exact hg.adj u x hx e
  · intro u x hx
    rw [addVertex_find] at hx
    show u < g.next_vertex_id_ + 1
    split_ifs at hx with h
    · omega
    · have := hg.vertex_below u x hx
      omega
  · intro e x hx
    exact hg.edge_below e x hx
  · intro e x hx
    have := hg.ends_below e x hx
    show x.start_vertex < g.next_vertex_id_ + 1 ∧ x.end_vertex < g.next_vertex_id_ + 1
    omega

theorem wellLinked_addEdge (dflt : GraphVertex P) {g : SparseGraph P} (hg : g.WellLinked)
    (e : GraphEdge P) {s t : GraphVertex P}
    (hs : g.vertex_map_.find e.start_vertex = some s)
    (ht : g.vertex_map_.find e.end_vertex = some t) : (g.addEdge dflt e).2.WellLinked := by
  have hfree : g.edge_map_.find g.next_edge_id_ = none := by
    cases h : g.edge_map_.find g.next_edge_id_ with
    | none => rfl
    | some x => exact absurd (hg.edge_below _ x h) (lt_irrefl _)
  refine ⟨?_, ?_, ?_, ?_⟩
  · intro u x hx e0
    rw [addEdge_vfind dflt g e hs ht] at hx
    cases hu : g.vertex_map_.find u with
    | none => simp [hu] at hx
    | some x0 =>
      simp only [hu, Option.map_some', Option.some.injEq] at hx
      subst hx
      have hadj := hg.adj u x0 hu e0
      unfold links at hadj ⊢
      rw [addEdge_efind dflt g e hs ht hfree]
      by_cases h0 : e0 = g.next_edge_id_
      · subst h0
        rw [hfree] at hadj
        simp only [if_true, GraphEdge.ends, List.count_append, hadj, count_push]
        simp
      · rw [if_neg h0, ← hadj]
        have hne : g.next_edge_id_ ≠ e0 := fun h => h0 h.symm
        simp [List.count_append, count_push, hne]
  · intro u x hx
    rw [addEdge_vfind dflt g e hs ht] at hx
    cases hu : g.vertex_map_.find u with
    | none => simp [hu] at hx
    | some x0 => exact hg.vertex_below u x0 hu
  · intro e0 x hx
    rw [addEdge_efind dflt g e hs ht hfree] at hx
    show e0 < g.next_edge_id_ + 1
    split_ifs at hx with h
    · omega
    · have := hg.edge_below e0 x hx
      omega
  · intro e0 x hx
    rw [addEdge_efind dflt g e hs ht hfree] at hx
    show x.start_vertex < g.next_vertex_id_ ∧ x.end_vertex < g.next_vertex_id_
    split_ifs at hx with h
    · simp only [Option.some.injEq] at hx
      subst hx
      exact ⟨hg.vertex_below _ s hs, hg.vertex_below _ t ht⟩
    · exact hg.ends_below e0 x hx

theorem count_eraseIf_self (c : Prop) [Decidable c] (id : Int) (l : List Int) :
    List.count id (eraseIf c id l) = List.count id l - (if c then 1 else 0) := by
  unfold eraseIf
  split_ifs with h
  · rw [eraseFirst_eq_erase, List.count_erase_self]
  · rfl

theorem count_eraseIf_of_ne (c : Prop) [Decidable c] {id a : Int} (h : a ≠ id)
    (l : List Int) : List.count a (eraseIf c id l) = List.count a l := by
  unfold eraseIf
  split_ifs with hc
  · rw [eraseFirst_eq_erase, List.count_erase_of_ne h]
  · rfl

theorem wellLinked_removeEdgeResult {g : SparseGraph P} (hg : g.WellLinked) {id : Int}
    {e : GraphEdge P} (he : g.edge_map_.find id = some e) :
    (removeEdgeResult g id e).WellLinked := by
  refine ⟨?_, ?_, ?_, ?_⟩
  · intro u x hx e0
    rw [removeEdgeResult_vfind] at hx
    cases hu : g.vertex_map_.find u with
    | none => simp [hu] at hx
    | some x0 =>
      simp only [hu, Option.map_some', Option.some.injEq] at hx
      subst hx
      have hadj := hg.adj u x0 hu e0
      unfold links at hadj ⊢
      rw [removeEdgeResult_efind]
      by_cases h0 : e0 = id
      · subst h0
        rw [he] at hadj
        simp only [if_true, count_eraseIf_self, hadj, GraphEdge.ends]
        omega
      · rw [if_neg h0, ← hadj]
        simp only [count_eraseIf_of_ne _ h0]
  · intro u x hx
    rw [removeEdgeResult_vfind] at hx
    cases hu : g.vertex_map_.find u with
    | none => simp [hu] at hx
    | some x0 => exact hg.vertex_below u x0 hu
  · intro e0 x hx
    rw [removeEdgeResult_efind] at hx
    split_ifs at hx with h
    exact hg.edge_below e0 x hx
  · intro e0 x hx
    rw [removeEdgeResult_efind] at hx
    split_ifs at hx with h
    exact hg.ends_below e0 x hx

theorem wellLinked_removeEdge {g g' : SparseGraph P} (hg : g.WellLinked) {id : Int}
    (h : g.removeEdge id = some g') : g'.WellLinked := by
  rcases removeEdge_cases h with ⟨_, rfl⟩ | ⟨e, s, t, he, _, _, rfl⟩
  · exact hg
  · exact wellLinked_removeEdgeResult hg he

theorem wellLinked_eraseVertex {g : SparseGraph P} (hg : g.WellLinked) (id : Int) :
    ({ g with vertex_map_ := g.vertex_map_.erase id } : SparseGraph P).WellLinked := by
  refine ⟨?_, ?_, hg.edge_below, hg.ends_below⟩
  · intro u x hx e0
    simp only [IdMap.find_erase] at hx
    split_ifs at hx with h
    exact hg.adj u x hx e0
  · intro u x hx
    simp only [IdMap.find_erase] at hx
    split_ifs at hx with h
    exact hg.vertex_below u x hx

theorem wellLinked_removeVertex {g g' : SparseGraph P} (hg : g.WellLinked) {id : Int}
    (h : g.removeVertex id = some g') : g'.WellLinked := by
  rcases removeVertex_cases h with ⟨_, rfl⟩ | ⟨x, g1, _, hl, rfl⟩
  · exact hg
  · exact wellLinked_eraseVertex
      (removeVertexLoop_preserves WellLinked
        (fun g0 id0 g0' hq h0 => wellLinked_removeEdge hq h0) id _ _ g _ g1 hl hg) id

theorem wellLinked_transformFrame {g : SparseGraph P} (hg : g.WellLinked) (T : P → P) :
    (g.transformFrame T).WellLinked := by
  have hlinks : ∀ u e, (g.transformFrame T).links u e = g.links u e := by
    intro u e
    unfold links
    simp only [transformFrame, IdMap.find_mapValues]
    cases g.edge_map_.find e <;> rfl
  refine ⟨?_, ?_, ?_, ?_⟩
  · intro u x hx e0
    rw [hlinks]
    simp only [transformFrame, IdMap.find_mapValues] at hx
    cases hu : g.vertex_map_.find u with
    | none => simp [hu] at hx
    | some x0 =>
      simp only [hu, Option.map_some', Option.some.injEq] at hx
      subst hx
      exact hg.adj u x0 hu e0
  · intro u x hx
    simp only [transformFrame, IdMap.find_mapValues] at hx
    cases hu : g.vertex_map_.find u with
    | none => simp [hu] at hx
    | some x0 => exact hg.vertex_below u x0 hu
  · intro e0 x hx
    simp only [transformFrame, IdMap.find_mapValues] at hx
    cases hu : g.edge_map_.find e0 with
    | none => simp [hu] at hx
    | some x0 => exact hg.edge_below e0 x0 hu
  · intro e0 x hx
    simp only [transformFrame, IdMap.find_mapValues] at hx
    cases hu : g.edge_map_.find e0 with
    | none => simp [hu] at hx
    | some x0 =>
      simp only [hu, Option.map_some', Option.some.injEq] at hx
      subst hx
      exact hg.ends_below e0 x0 hu

theorem wellLinked_clear (g : SparseGraph P) : g.clear.WellLinked := wellLinked_empty

end SparseGraph

/-- Every call of `freshEditCalls` that returns keeps the adjacency lists
consistent with the edge store. -/
theorem Op.call_wellLinked {P : Type} {dflt : GraphVertex P} {g g' : SparseGraph P}
    {op : Op P} {r : Ret} (hg : g.WellLinked) (ha : freshEditCalls P g op)
    (h : op.call dflt g = some (g', r)) : g'.WellLinked := by
  obtain ⟨hedit, hend, hfresh⟩ := ha
  cases op with
  | addVertex vertex =>
    simp only [Op.call, Option.some.injEq, Prod.mk.injEq] at h
    obtain ⟨rfl, rfl⟩ := h
    exact SparseGraph.wellLinked_addVertex hg vertex hfresh
  | addEdge edge =>
    simp only [Op.call, Option.some.injEq, Prod.mk.injEq] at h
    obtain ⟨rfl, rfl⟩ := h
    obtain ⟨s, hs⟩ := (SparseGraph.hasVertex_eq_true_iff g _).1 hend.1
    obtain ⟨t, ht⟩ := (SparseGraph.hasVertex_eq_true_iff g _).1 hend.2
    exact SparseGraph.wellLinked_addEdge dflt hg edge hs ht
  | removeVertex id =>
    simp only [Op.call, Option.map_eq_some', Prod.mk.injEq] at h
    obtain ⟨g1, h1, rfl, rfl⟩ := h
    exact SparseGraph.wellLinked_removeVertex hg h1
  | removeEdge id =>
    simp only [Op.call, Option.map_eq_some', Prod.mk.injEq] at h
    obtain ⟨g1, h1, rfl, rfl⟩ := h
    exact SparseGraph.wellLinked_removeEdge hg h1
  | transformFrame T =>
    simp only [Op.call, Option.some.injEq, Prod.mk.injEq] at h
    obtain ⟨rfl, rfl⟩ := h
    exact SparseGraph.wellLinked_transformFrame hg T
  | clear =>
    simp only [Op.call, Option.some.injEq, Prod.mk.injEq] at h
    obtain ⟨rfl, rfl⟩ := h
    exact SparseGraph.wellLinked_clear g
  | addSerializedVertex vertex => exact absurd hedit (by simp [Op.isEdit])
  | addSerializedEdge edge => exact absurd hedit (by simp [Op.isEdit])

theorem Reachable.wellLinked {P : Type} {dflt : GraphVertex P} {g : SparseGraph P}
    (h : Reachable dflt (freshEditCalls P) g) : g.WellLinked := by
  induction h with
  | init => exact SparseGraph.wellLinked_empty
  | step op _ ha hc ih => exact Op.call_wellLinked ih ha hc

theorem Reachable.mono {P : Type} {dflt : GraphVertex P} {A B : Calls P}
    (hAB : ∀ g op, A g op → B g op) {g : SparseGraph P} (h : Reachable dflt A g) :
    Reachable dflt B g := by
  induction h with
  | init => exact Reachable.init
  | step op _ ha hc ih => exact Reachable.step op ih (hAB _ _ ha) hc

theorem freshStructural_le_freshEdit {P : Type} (g : SparseGraph P) (op : Op P)
    (h : freshStructuralCalls P g op) : freshEditCalls P g op := by
  obtain ⟨h1, h2, h3⟩ := h
  refine ⟨?_, h2, h3⟩
  cases op <;> simp_all [Op.isEdit, Op.isStructural]

/-- A returning call other than `clear()` lowers neither counter, and an id it
returns is the value of the matching counter before the call, which the call
advances by one. -/
theorem Op.call_counters {P : Type} {dflt : GraphVertex P} {g g' : SparseGraph P}
    {op : Op P} {r : Ret} (h : op.call dflt g = some (g', r)) (hc : op.isClear = false) :
    g.next_vertex_id_ ≤ g'.next_vertex_id_ ∧ g.next_edge_id_ ≤ g'.next_edge_id_ ∧
    (∀ i, r.vertexId? = some i → i = g.next_vertex_id_ ∧
      g'.next_vertex_id_ = g.next_vertex_id_ + 1) ∧
    (∀ i, r.edgeId? = some i → i = g.next_edge_id_ ∧
      g'.next_edge_id_ = g.next_edge_id_ + 1) := by
  cases op with
  | addVertex vertex =>
    simp only [Op.call, Option.some.injEq, Prod.mk.injEq] at h
    obtain ⟨rfl, rfl⟩ := h
    simp [Ret.vertexId?, Ret.edgeId?, SparseGraph.addVertex]
  | addEdge edge =>
    simp only [Op.call, Option.some.injEq, Prod.mk.injEq] at h
    obtain ⟨rfl, rfl⟩ := h
    simp [Ret.vertexId?, Ret.edgeId?, SparseGraph.addEdge]
  | removeVertex id =>
    simp only [Op.call, Option.map_eq_some', Prod.mk.injEq] at h
    obtain ⟨g1, h1, rfl, rfl⟩ := h
    have := SparseGraph.removeVertex_counters h1
    simp [Ret.vertexId?, Ret.edgeId?, this.1, this.2]
  | removeEdge id =>
    simp only [Op.call, Option.map_eq_some', Prod.mk.injEq] at h
    obtain ⟨g1, h1, rfl, rfl⟩ := h
    have := SparseGraph.removeEdge_counters h1
    simp [Ret.vertexId?, Ret.edgeId?, this.1, this.2]
  | transformFrame T =>
    simp only [Op.call, Option.some.injEq, Prod.mk.injEq] at h
    obtain ⟨rfl, rfl⟩ := h
    simp [Ret.vertexId?, Ret.edgeId?, SparseGraph.transformFrame]
  | clear => simp [Op.isClear] at hc
  | addSerializedVertex vertex =>
    simp only [Op.call, Option.some.injEq, Prod.mk.injEq] at h
    obtain ⟨rfl, rfl⟩ := h
    simp [Ret.vertexId?, Ret.edgeId?, SparseGraph.addSerializedVertex]
  | addSerializedEdge edge =>
    simp only [Op.call, Option.some.injEq, Prod.mk.injEq] at h
    obtain ⟨rfl, rfl⟩ := h
    simp [Ret.vertexId?, Ret.edgeId?, SparseGraph.addSerializedEdge]

/-- Along a returning sequence without `clear()`, the ids returned by
`addVertex` are at least the vertex counter of the starting state and strictly
increase in call order; likewise for `addEdge` and the edge counter. -/
theorem runOps_ids {P : Type} (dflt : GraphVertex P) :
    ∀ (ops : List (Op P)) (g g' : SparseGraph P) (rs : List Ret),
      ops.any Op.isClear = false → runOps dflt ops g = some (g', rs) →
      ((∀ i ∈ rs.filterMap Ret.vertexId?, g.next_vertex_id_ ≤ i) ∧
        (rs.filterMap Ret.vertexId?).Pairwise (· < ·)) ∧
      ((∀ i ∈ rs.filterMap Ret.edgeId?, g.next_edge_id_ ≤ i) ∧
        (rs.filterMap Ret.edgeId?).Pairwise (· < ·)) := by
  intro ops
  induction ops with
  | nil =>
    intro g g' rs _ h
    simp only [runOps, Option.some.injEq, Prod.mk.injEq] at h
    obtain ⟨_, rfl⟩ := h
    simp
  | cons op ops ih =>
    intro g g' rs hc h
    simp only [List.any_cons, Bool.or_eq_false_iff] at hc
    simp only [runOps] at h
    cases h1 : op.call dflt g with
    | none => simp [h1] at h
    | some p1 =>
      obtain ⟨g1, r⟩ := p1
      simp only [h1] at h
      cases h2 : runOps dflt ops g1 with
      | none => simp [h2] at h
      | some p2 =>
        obtain ⟨g2, rs2⟩ := p2
        simp only [h2, Option.some.injEq, Prod.mk.injEq] at h
        obtain ⟨rfl, rfl⟩ := h
        obtain ⟨hv, he, hrv, hre⟩ := Op.call_counters h1 hc.1
        obtain ⟨⟨ihv1, ihv2⟩, ⟨ihe1, ihe2⟩⟩ := ih g1 g2 rs2 hc.2 h2
        constructor
        · cases hr : r.vertexId? with
          | none =>
            rw [List.filterMap_cons_none hr]
            exact ⟨fun i hi => le_trans hv (ihv1 i hi), ihv2⟩
          | some i =>
            rw [List.filterMap_cons_some hr]
            obtain ⟨rfl, hn⟩ := hrv i hr
            refine ⟨?_, List.pairwise_cons.2 ⟨?_, ihv2⟩⟩
            · intro j hj
              rcases List.mem_cons.1 hj with rfl | hj
              · exact le_refl _
              · have := ihv1 j hj
                omega
            · intro j hj
              have := ihv1 j hj
              omega
        · cases hr : r.edgeId? with
          | none =>
            rw [List.filterMap_cons_none hr]
            exact ⟨fun i hi => le_trans he (ihe1 i hi), ihe2⟩
          | some i =>
            rw [List.filterMap_cons_some hr]
            obtain ⟨rfl, hn⟩ := hre i hr
            refine ⟨?_, List.pairwise_cons.2 ⟨?_, ihe2⟩⟩
            · intro j hj
              rcases List.mem_cons.1 hj with rfl | hj
              · exact le_refl _
              · have := ihe1 j hj
                omega
            · intro j hj
              have := ihe1 j hj
              omega

namespace SparseGraph

variable {P : Type}

/-! ### Adjacency queries on consistent graphs -/

theorem mem_edge_list_iff {g : SparseGraph P} (hg : g.WellLinked) {a : Int}
    {x : GraphVertex P} (hx : g.vertex_map_.find a = some x) (e : Int) :
    e ∈ x.edge_list ↔
      ∃ y, g.edge_map_.find e = some y ∧ (y.start_vertex = a ∨ y.end_vertex = a) := by
  rw [← List.count_pos_iff, hg.adj a x hx e]
  unfold links
  cases he : g.edge_map_.find e with
  | none => simp
  | some y =>
    simp only [Option.some.injEq, exists_eq_left', GraphEdge.ends]
    by_cases h1 : a = y.start_vertex <;> by_cases h2 : a = y.end_vertex <;>
      simp [h1, h2, eq_comm]

theorem connectedScan_spec (g : SparseGraph P) (b : Int) :
    ∀ l : List Int, (∀ e ∈ l, ∃ y, g.edge_map_.find e = some y) →
      ∃ c, connectedScan g b l = some c ∧
        (c = true ↔ ∃ e ∈ l, ∃ y, g.edge_map_.find e = some y ∧
          (y.start_vertex = b ∨ y.end_vertex = b)) := by
  intro l
  induction l with
  | nil =>
    intro _
    exact ⟨false, rfl, by simp⟩
  | cons e t ih =>
    intro h
    obtain ⟨y, hy⟩ := h e (List.mem_cons_self _ _)
    obtain ⟨c, hc, hiff⟩ := ih (fun e' he' => h e' (List.mem_cons_of_mem _ he'))
    by_cases hb : y.start_vertex = b ∨ y.end_vertex = b
    · refine ⟨true, by simp [connectedScan, getEdge, hy, hb], ?_⟩
      simp only [true_iff]
      exact ⟨e, List.mem_cons_self _ _, y, hy, hb⟩
    · refine ⟨c, by simp [connectedScan, getEdge, hy, hb, hc], ?_⟩
      rw [hiff]
      constructor
      · rintro ⟨e', he', y', hy', hb'⟩
        exact ⟨e', List.mem_cons_of_mem _ he', y', hy', hb'⟩
      · rintro ⟨e', he', y', hy', hb'⟩
        rcases List.mem_cons.1 he' with rfl | he'
        · rw [hy] at hy'
          cases hy'
          exact absurd hb' hb
        · exact ⟨e', he', y', hy', hb'⟩

/-- On a consistent graph the query on a stored vertex `a` is defined and
answers whether some stored edge has one end at `a` and one end at `b`. -/
theorem connected_iff_joined {g : SparseGraph P} (hg : g.WellLinked) {a : Int}
    {x : GraphVertex P} (hx : g.vertex_map_.find a = some x) (b : Int) :
    ∃ c, g.areVerticesDirectlyConnected a b = some c ∧ (c = true ↔ g.joined a b) := by
  obtain ⟨c, hc, hiff⟩ := connectedScan_spec g b x.edge_list
    (fun e he => by
      obtain ⟨y, hy, _⟩ := (mem_edge_list_iff hg hx e).1 he
      exact ⟨y, hy⟩)
  refine ⟨c, by simp [areVerticesDirectlyConnected, getVertex, hx, hc], ?_⟩
  rw [hiff]
  unfold joined
  constructor
  · rintro ⟨e, he, y, hy, hb⟩
    obtain ⟨y', hy', ha⟩ := (mem_edge_list_iff hg hx e).1 he
    rw [hy] at hy'
    cases hy'
    exact ⟨e, y, hy, ha, hb⟩
  · rintro ⟨e, y, hy, ha, hb⟩
    exact ⟨e, (mem_edge_list_iff hg hx e).2 ⟨y, hy, ha⟩, y, hy, hb⟩

theorem joined_comm (g : SparseGraph P) (a b : Int) : g.joined a b ↔ g.joined b a := by
  unfold joined
  constructor <;> rintro ⟨e, y, hy, h1, h2⟩ <;> exact ⟨e, y, hy, h2, h1⟩

end SparseGraph

/-! ### When the removals return -/

namespace SparseGraph

variable {P : Type}

theorem length_eraseFirst_le (id : Int) (l : List Int) :
    (eraseFirst id l).length ≤ l.length := by
  rw [eraseFirst_eq_erase]
  exact List.length_erase_le id l

theorem length_resync {vm : IdMap (GraphVertex P)} {v : Int} {mem : List Int}
    (h : ∀ x, vm.find v = some x → x.edge_list.length ≤ mem.length) :
    (resync vm v mem).length = mem.length := by
  unfold resync
  cases hx : vm.find v with
  | none => rfl
  | some x =>
    have := h x hx
    simp only [List.length_append, List.length_drop]
    omega

theorem removeEdgeResult_hasVertex (g : SparseGraph P) (id : Int) (e : GraphEdge P)
    (k : Int) : (removeEdgeResult g id e).hasVertex k = g.hasVertex k := by
  unfold hasVertex IdMap.contains
  rw [removeEdgeResult_vfind]
  cases g.vertex_map_.find k <;> rfl

theorem endpointsStored_removeEdge {g g' : SparseGraph P} (hg : g.EndpointsStored)
    {id : Int} (h : g.removeEdge id = some g') : g'.EndpointsStored := by
  rcases removeEdge_cases h with ⟨_, rfl⟩ | ⟨e, s, t, he, _, _, rfl⟩
  · exact hg
  · intro e0 y hy
    rw [removeEdgeResult_efind] at hy
    split_ifs at hy with h0
    rw [removeEdgeResult_hasVertex, removeEdgeResult_hasVertex]
    exact hg e0 y hy

/-- With every stored edge between stored vertices, the instrumented
`removeEdge` returns, and the storage it follows keeps its length as long as
the list of `v` fits in it. -/
theorem removeEdgeTracked_returns {g : SparseGraph P} (hg : g.EndpointsStored) (v : Int)
    {mem : List Int} (hfit : ∀ x, g.vertex_map_.find v = some x →
      x.edge_list.length ≤ mem.length) (id : Int) :
    ∃ g' mem', removeEdgeTracked v g mem id = some (g', mem') ∧
      mem'.length = mem.length ∧
      ∀ x, g'.vertex_map_.find v = some x → x.edge_list.length ≤ mem'.length := by
  unfold removeEdgeTracked
  cases he : g.edge_map_.find id with
  | none => exact ⟨g, mem, rfl, rfl, hfit⟩
  | some e =>
    obtain ⟨h1, h2⟩ := hg id e he
    obtain ⟨s, hs⟩ := (hasVertex_eq_true_iff g _).1 h1
    obtain ⟨t, ht⟩ := (hasVertex_eq_true_iff g _).1 h2
    simp only [getVertex, hs, ht]
    have hfit1 : ∀ x, (g.vertex_map_.modify e.start_vertex
        (fun x => { x with edge_list := eraseFirst id x.edge_list })).find v = some x →
        x.edge_list.length ≤ mem.length := by
      intro x hx
      rw [IdMap.find_modify] at hx
      split_ifs at hx with hv
      · subst hv
        rw [hs] at hx
        simp only [Option.map_some', Option.some.injEq] at hx
        subst hx
        exact le_trans (length_eraseFirst_le id _) (hfit s hs)
      · exact hfit x hx
    have hlen1 := length_resync hfit1
    have hfit2 : ∀ x, ((g.vertex_map_.modify e.start_vertex
        (fun x => { x with edge_list := eraseFirst id x.edge_list })).modify e.end_vertex
        (fun x => { x with edge_list := eraseFirst id x.edge_list })).find v = some x →
        x.edge_list.length ≤ mem.length := by
      intro x hx
      rw [IdMap.find_modify] at hx
      split_ifs at hx with hv
      · subst hv
        cases hy : (g.vertex_map_.modify e.start_vertex
            (fun x => { x with edge_list := eraseFirst id x.edge_list })).find e.end_vertex with
        | none => simp [hy] at hx
        | some y =>
          simp only [hy, Option.map_some', Option.some.injEq] at hx
          subst hx
          exact le_trans (length_eraseFirst_le id _) (hfit1 y hy)
      · exact hfit1 x hx
    refine ⟨_, _, rfl, ?_, ?_⟩
    · rw [length_resync (by rw [hlen1]; exact hfit2), hlen1]
    · rw [length_resync (by rw [hlen1]; exact hfit2), hlen1]
      exact hfit2

theorem removeVertexLoop_returns (v : Int) :
    ∀ (n i : Nat) (g : SparseGraph P) (mem : List Int), g.EndpointsStored →
      i + n = mem.length →
      (∀ x, g.vertex_map_.find v = some x → x.edge_list.length ≤ mem.length) →
      ∃ g', removeVertexLoop v n i g mem = some g' := by
  intro n
  induction n with
  | zero =>
    intro i g mem _ _ _
    exact ⟨g, rfl⟩
  | succ n ih =>
    intro i g mem hg hlen hfit
    have hi : i < mem.length := by omega
    obtain ⟨g1, mem1, h1, hlen1, hfit1⟩ := removeEdgeTracked_returns hg v hfit mem[i]
    have hg1 : g1.EndpointsStored := by
      have hfst := removeEdgeTracked_fst v g mem mem[i]
      rw [h1] at hfst
      exact endpointsStored_removeEdge hg hfst.symm
    obtain ⟨g', h'⟩ := ih (i + 1) g1 mem1 hg1 (by omega) hfit1
    refine ⟨g', ?_⟩
    simp only [removeVertexLoop, List.getElem?_eq_getElem hi, h1]
    exact h'

theorem removeVertex_returns {g : SparseGraph P} (hg : g.EndpointsStored) (id : Int) :
    ∃ g', g.removeVertex id = some g' := by
  cases hx : g.vertex_map_.find id with
  | none => exact ⟨g, removeVertex_of_missing hx⟩
  | some x =>
    obtain ⟨g1, h1⟩ := removeVertexLoop_returns id x.edge_list.length 0 g x.edge_list hg
      (by omega) (fun y hy => by rw [hx] at hy; cases hy; exact le_refl _)
    exact ⟨{ g1 with vertex_map_ := g1.vertex_map_.erase id },
      by simp only [removeVertex, hx, h1]⟩

theorem removeEdge_returns {g : SparseGraph P} (hg : g.EndpointsStored) (id : Int) :
    ∃ g', g.removeEdge id = some g' := by
  cases he : g.edge_map_.find id with
  | none => exact ⟨g, removeEdge_of_missing he⟩
  | some e =>
    obtain ⟨h1, h2⟩ := hg id e he
    obtain ⟨s, hs⟩ := (hasVertex_eq_true_iff g _).1 h1
    obtain ⟨t, ht⟩ := (hasVertex_eq_true_iff g _).1 h2
    exact ⟨_, removeEdge_of_stored he hs ht⟩

end SparseGraph

/-! ### The sample star and what `removeVertex` leaves of it -/

theorem star_reachable : Reachable sampleDefault (freshStructuralCalls Int) star :=
  Reachable.step (.addEdge (sampleEdge 0 3))
    (Reachable.step (.addEdge (sampleEdge 0 2))
      (Reachable.step (.addEdge (sampleEdge 0 1))
        (Reachable.step (.addVertex (sampleVertex 13))
          (Reachable.step (.addVertex (sampleVertex 12))
            (Reachable.step (.addVertex (sampleVertex 11))
              (Reachable.step (.addVertex (sampleVertex 10)) Reachable.init
                ⟨trivial, trivial, rfl⟩ rfl)
              ⟨trivial, trivial, rfl⟩ rfl)
            ⟨trivial, trivial, rfl⟩ rfl)
          ⟨trivial, trivial, rfl⟩ rfl)
        ⟨trivial, ⟨rfl, rfl⟩, trivial⟩ rfl)
      ⟨trivial, ⟨rfl, rfl⟩, trivial⟩ rfl)
    ⟨trivial, ⟨rfl, rfl⟩, trivial⟩ rfl

theorem star_removed_reachable {g' : SparseGraph Int} (h : star.removeVertex 0 = some g') :
    Reachable sampleDefault (freshStructuralCalls Int) g' :=
  Reachable.step (.removeVertex 0) star_reachable ⟨trivial, trivial, trivial⟩
    (show (star.removeVertex 0).map (fun g1 => (g1, Ret.void)) = some (g', Ret.void) by
      rw [h]; rfl)

theorem structural_le_edit {P : Type} (g : SparseGraph P) (op : Op P)
    (h : structuralCalls P g op) : editCalls P g op := by
  obtain ⟨h1, h2⟩ := h
  refine ⟨?_, h2⟩
  cases op <;> simp_all [Op.isEdit, Op.isStructural]

theorem freshStructural_le_structural {P : Type} (g : SparseGraph P) (op : Op P)
    (h : freshStructuralCalls P g op) : structuralCalls P g op := ⟨h.1, h.2.1⟩

/-! ## The contract of the single operations -/

/-- C6: in a state where both endpoints of `e` are stored (as `s` and `t`) and
no edge is stored under the next edge id `n`, `addEdge(e)` returns `n`; the edge
store then holds under `n` the edge with `edge_id = n`, the endpoints of `e` and
the points of `s` and `t`; `n` is appended to the list of the start vertex and
to the list of the end vertex (twice on the one list when they coincide); every
other vertex, every other edge and the vertex counter are unchanged, and the
edge counter is `n + 1`. -/
theorem addEdge_contract {P : Type} (dflt : GraphVertex P) (g : SparseGraph P)
    (e : GraphEdge P) (s t : GraphVertex P)
    (hs : g.getVertex e.start_vertex = some s) (ht : g.getVertex e.end_vertex = some t)
    (hfree : g.hasEdge g.next_edge_id_ = false) :
    (g.addEdge dflt e).1 = g.next_edge_id_ ∧
    (g.addEdge dflt e).2.getEdge g.next_edge_id_ =
      some { edge_id := g.next_edge_id_, start_vertex := e.start_vertex,
             end_vertex := e.end_vertex, start_point := s.point, end_point := t.point } ∧
    (e.start_vertex ≠ e.end_vertex →
      (g.addEdge dflt e).2.getVertex e.start_vertex =
        some { s with edge_list := s.edge_list ++ [g.next_edge_id_] } ∧
      (g.addEdge dflt e).2.getVertex e.end_vertex =
        some { t with edge_list := t.edge_list ++ [g.next_edge_id_] }) ∧
    (e.start_vertex = e.end_vertex →
      (g.addEdge dflt e).2.getVertex e.start_vertex =
        some { s with edge_list := s.edge_list ++ [g.next_edge_id_, g.next_edge_id_] }) ∧
    (∀ k, k ≠ e.start_vertex → k ≠ e.end_vertex →
      (g.addEdge dflt e).2.getVertex k = g.getVertex k) ∧
    (∀ k, k ≠ g.next_edge_id_ → (g.addEdge dflt e).2.getEdge k = g.getEdge k) ∧
    (g.addEdge dflt e).2.next_vertex_id_ = g.next_vertex_id_ ∧
    (g.addEdge dflt e).2.next_edge_id_ = g.next_edge_id_ + 1 := by
  have hfree' := (SparseGraph.hasEdge_eq_false_iff g _).1 hfree
  unfold SparseGraph.getVertex at hs ht
  refine ⟨rfl, ?_, ?_, ?_, ?_, ?_, rfl, rfl⟩
  · unfold SparseGraph.getEdge
    rw [SparseGraph.addEdge_efind dflt g e hs ht hfree']
    simp
  · intro hne
    unfold SparseGraph.getVertex
    rw [SparseGraph.addEdge_vfind dflt g e hs ht, SparseGraph.addEdge_vfind dflt g e hs ht,
      hs, ht]
    simp [hne, Ne.symm hne]
  · intro heq
    unfold SparseGraph.getVertex
    rw [SparseGraph.addEdge_vfind dflt g e hs ht, hs]
    simp [heq]
  · intro k h1 h2
    unfold SparseGraph.getVertex
    rw [SparseGraph.addEdge_vfind dflt g e hs ht]
    cases g.vertex_map_.find k <;> simp [h1, h2]
  · intro k hk
    unfold SparseGraph.getEdge
    rw [SparseGraph.addEdge_efind dflt g e hs ht hfree']
    simp [hk]

/-- C7 (amended): `addVertex(v)` never fails and returns the current vertex
counter `n`; the counter becomes `n + 1`, every other vertex and the whole edge
store and edge counter are unchanged. When no vertex is stored under `n`, the
store afterwards holds under `n` the point and edge list of `v` with
`vertex_id = n`; when a vertex `w` is already stored under `n`, `v` is not
stored: `w` keeps its point and edge list and gets `vertex_id = n`. -/
theorem addVertex_contract {P : Type} (g : SparseGraph P) (v : GraphVertex P) :
    (g.addVertex v).1 = g.next_vertex_id_ ∧
    (g.addVertex v).2.getVertex g.next_vertex_id_ =
      some (match g.getVertex g.next_vertex_id_ with
        | none => { vertex_id := g.next_vertex_id_, point := v.point,
                    edge_list := v.edge_list }
        | some w => { vertex_id := g.next_vertex_id_, point := w.point,
                      edge_list := w.edge_list }) ∧
    (g.addVertex v).2.next_vertex_id_ = g.next_vertex_id_ + 1 ∧
    (∀ k, k ≠ g.next_vertex_id_ → (g.addVertex v).2.getVertex k = g.getVertex k) ∧
    (g.addVertex v).2.edge_map_ = g.edge_map_ ∧
    (g.addVertex v).2.next_edge_id_ = g.next_edge_id_ := by
  refine ⟨rfl, ?_, rfl, ?_, rfl, rfl⟩
  · unfold SparseGraph.getVertex
    rw [SparseGraph.addVertex_find]
    cases g.vertex_map_.find g.next_vertex_id_ <;> simp
  · intro k hk
    unfold SparseGraph.getVertex
    rw [SparseGraph.addVertex_find]
    simp [hk]

/-- C9: when the edge `e` is stored under `id` and both its endpoints are stored
(as `s` and `t`), `removeEdge(id)` returns; afterwards `id` is not in the edge
store and every other edge is as before; the first occurrence of `id` is gone
from the list of the start vertex and from the list of the end vertex (two
successive removals on the one list for a self-loop), the rest of each list
keeping its order; every other vertex, every point and both counters are
unchanged. -/
theorem removeEdge_contract {P : Type} (g : SparseGraph P) (id : Int) (e : GraphEdge P)
    (s t : GraphVertex P) (he : g.getEdge id = some e)
    (hs : g.getVertex e.start_vertex = some s) (ht : g.getVertex e.end_vertex = some t) :
    ∃ g', g.removeEdge id = some g' ∧
      g'.hasEdge id = false ∧
      (∀ k, k ≠ id → g'.getEdge k = g.getEdge k) ∧
      (e.start_vertex ≠ e.end_vertex →
        g'.getVertex e.start_vertex = some { s with edge_list := s.edge_list.erase id } ∧
        g'.getVertex e.end_vertex = some { t with edge_list := t.edge_list.erase id }) ∧
      (e.start_vertex = e.end_vertex →
        g'.getVertex e.start_vertex =
          some { s with edge_list := (s.edge_list.erase id).erase id }) ∧
      (∀ k, k ≠ e.start_vertex → k ≠ e.end_vertex → g'.getVertex k = g.getVertex k) ∧
      g'.next_vertex_id_ = g.next_vertex_id_ ∧ g'.next_edge_id_ = g.next_edge_id_ := by
  unfold SparseGraph.getVertex at hs ht
  unfold SparseGraph.getEdge at he
  refine ⟨_, SparseGraph.removeEdge_of_stored he hs ht, ?_, ?_, ?_, ?_, ?_, rfl, rfl⟩
  · rw [SparseGraph.hasEdge_eq_false_iff, SparseGraph.removeEdgeResult_efind]
    simp
  · intro k hk
    unfold SparseGraph.getEdge
    rw [SparseGraph.removeEdgeResult_efind]
    simp [hk]
  · intro hne
    unfold SparseGraph.getVertex
    rw [SparseGraph.removeEdgeResult_vfind, SparseGraph.removeEdgeResult_vfind, hs, ht]
    simp [eraseIf, hne, Ne.symm hne, SparseGraph.eraseFirst_eq_erase]
  · intro heq
    unfold SparseGraph.getVertex
    rw [SparseGraph.removeEdgeResult_vfind, hs]
    simp [eraseIf, heq, SparseGraph.eraseFirst_eq_erase]
  · intro k h1 h2
    unfold SparseGraph.getVertex
    rw [SparseGraph.removeEdgeResult_vfind]
    cases g.vertex_map_.find k <;> simp [eraseIf, h1, h2]

/-- C10: `removeVertex` of an id that is not a stored vertex, and `removeEdge`
of an id that is not a stored edge, return and leave the whole state (both
stores, both counters) as it was. -/
theorem remove_missing_is_noop {P : Type} (g : SparseGraph P) (id : Int) :
    (g.hasVertex id = false → g.removeVertex id = some g) ∧
    (g.hasEdge id = false → g.removeEdge id = some g) :=
  ⟨fun h => SparseGraph.removeVertex_of_missing ((SparseGraph.hasVertex_eq_false_iff g id).1 h),
   fun h => SparseGraph.removeEdge_of_missing ((SparseGraph.hasEdge_eq_false_iff g id).1 h)⟩

/-! ## Witnesses of the single-operation contracts -/

theorem addEdge_contract_witness :
    twoVertices.getVertex 0 = some { vertex_id := 0, point := 10, edge_list := [] } ∧
    twoVertices.getVertex 1 = some { vertex_id := 1, point := 11, edge_list := [] } ∧
    twoVertices.hasEdge twoVertices.next_edge_id_ = false ∧
    (twoVertices.addEdge sampleDefault (sampleEdge 0 1)).1 = 0 ∧
    oneEdge.getVertex 0 = some { vertex_id := 0, point := 10, edge_list := [0] } ∧
    oneEdge.getVertex 1 = some { vertex_id := 1, point := 11, edge_list := [0] } :=
  ⟨rfl, rfl, rfl,
    (addEdge_contract sampleDefault twoVertices (sampleEdge 0 1) _ _ rfl rfl rfl).1,
    ((addEdge_contract sampleDefault twoVertices (sampleEdge 0 1) _ _ rfl rfl rfl).2.2.1
      (by decide)).1,
    ((addEdge_contract sampleDefault twoVertices (sampleEdge 0 1) _ _ rfl rfl rfl).2.2.1
      (by decide)).2⟩

theorem addVertex_contract_witness :
    (loadedZero.addVertex strayVertex).1 = 0 ∧
    (loadedZero.addVertex strayVertex).2.getVertex 0 =
      some { vertex_id := 0, point := 7, edge_list := [] } ∧
    (twoVertices.addVertex strayVertex).2.getVertex 2 =
      some { vertex_id := 2, point := 9, edge_list := [7] } :=
  ⟨(addVertex_contract loadedZero strayVertex).1,
    (addVertex_contract loadedZero strayVertex).2.1,
    (addVertex_contract twoVertices strayVertex).2.1⟩

/-- C7 (counterexample): after a serialized vertex was loaded under id `0`,
`addVertex(strayVertex)` returns `0` but the vertex stored under `0` afterwards
has neither the point nor the edge list of `strayVertex`: it is the loaded one. -/
theorem addVertex_does_not_store :
    (loadedZero.addVertex strayVertex).1 = loadedZero.next_vertex_id_ ∧
    ((loadedZero.addVertex strayVertex).2.getVertex loadedZero.next_vertex_id_).map
        (fun w => (w.point, w.edge_list)) = some (7, []) ∧
    (strayVertex.point, strayVertex.edge_list) ≠ ((7 : Int), ([] : List Int)) := by
  decide

theorem removeEdge_contract_witness :
    oneEdge.getEdge 0 = some { edge_id := 0, start_vertex := 0, end_vertex := 1,
                               start_point := 10, end_point := 11 } ∧
    ∃ g', oneEdge.removeEdge 0 = some g' ∧ g'.hasEdge 0 = false ∧
      g'.getVertex 0 = some { vertex_id := 0, point := 10, edge_list := [] } ∧
      g'.getVertex 1 = some { vertex_id := 1, point := 11, edge_list := [] } := by
  refine ⟨rfl, ?_⟩
  obtain ⟨g', h1, h2, _, h4, _⟩ :=
    removeEdge_contract oneEdge 0 _ { vertex_id := 0, point := 10, edge_list := [0] }
      { vertex_id := 1, point := 11, edge_list := [0] } rfl rfl rfl
  exact ⟨g', h1, h2, (h4 (by decide)).1, (h4 (by decide)).2⟩

theorem remove_missing_is_noop_witness :
    oneEdge.hasVertex 5 = false ∧ oneEdge.hasEdge 5 = false ∧
    oneEdge.removeVertex 5 = some oneEdge ∧ oneEdge.removeEdge 5 = some oneEdge :=
  ⟨rfl, rfl, (remove_missing_is_noop oneEdge 5).1 rfl, (remove_missing_is_noop oneEdge 5).2 rfl⟩

/-! ## Id allocation -/

/-- C5: along any sequence of calls without `clear()` that runs from any state,
the ids returned by the `addVertex` calls strictly increase in call order, and
so do the ids returned by the `addEdge` calls, whatever removals, transforms
and serialized inserts lie between; on a fresh graph each of the two returns
`0` first. Ids are unbounded integers. -/
theorem allocated_ids_increase {P : Type} (dflt : GraphVertex P) (ops : List (Op P))
    (g g' : SparseGraph P) (rs : List Ret) (hclear : ops.any Op.isClear = false)
    (hrun : runOps dflt ops g = some (g', rs)) :
    (rs.filterMap Ret.vertexId?).Pairwise (· < ·) ∧
    (rs.filterMap Ret.edgeId?).Pairwise (· < ·) ∧
    (∀ v : GraphVertex P, (SparseGraph.empty.addVertex v).1 = 0) ∧
    (∀ e : GraphEdge P, (SparseGraph.empty.addEdge dflt e).1 = 0) :=
  ⟨(runOps_ids dflt ops g g' rs hclear hrun).1.2,
   (runOps_ids dflt ops g g' rs hclear hrun).2.2, fun _ => rfl, fun _ => rfl⟩

theorem allocated_ids_increase_witness :
    (runOps sampleDefault mixedOps SparseGraph.empty).map
        (fun r => (r.2.filterMap Ret.vertexId?, r.2.filterMap Ret.edgeId?))
      = some ([0, 1, 2], [0, 1, 2]) ∧
    ([0, 1, 2] : List Int).Pairwise (· < ·) := by
  refine ⟨by decide, ?_⟩
  cases h : runOps sampleDefault mixedOps SparseGraph.empty with
  | none => exact absurd h (by decide)
  | some r =>
    have hv : r.2.filterMap Ret.vertexId? = [0, 1, 2] := by
      have h2 : (runOps sampleDefault mixedOps SparseGraph.empty).map
          (fun r => r.2.filterMap Ret.vertexId?) = some [0, 1, 2] := by decide
      rw [h] at h2
      exact Option.some.inj h2
    rw [← hv]
    exact (allocated_ids_increase sampleDefault mixedOps SparseGraph.empty r.1 r.2 rfl h).1

/-! ## Cascading removal -/

/-- C1 (the code on a vertex with three edges): the star is built from the empty
graph by `addVertex` and `addEdge` calls, edge `1` starts at vertex `0`, and
`removeVertex(0)` returns a state in which vertex `0` and the edges `0` and `2`
are gone but edge `1` is still stored and still listed by vertex `2`. -/
theorem removeVertex_star_keeps_edge :
    (runOps sampleDefault starOps SparseGraph.empty).map Prod.fst = some star ∧
    (star.getVertex 0).map (fun x => x.edge_list) = some [0, 1, 2] ∧
    (star.getEdge 1).map (fun y => (y.start_vertex, y.end_vertex)) = some (0, 2) ∧
    ∃ g', star.removeVertex 0 = some g' ∧ g'.hasVertex 0 = false ∧
      g'.hasEdge 0 = false ∧ g'.hasEdge 1 = true ∧ g'.hasEdge 2 = false ∧
      (g'.getVertex 2).map (fun x => x.edge_list) = some [1] :=
  ⟨by decide, by decide, by decide, _, rfl, by decide, by decide, by decide, by decide,
    by decide⟩

/-- C2 (the code on the star): a state reached from the empty graph by
`addVertex`, `addEdge` with existing endpoints and one `removeVertex` stores an
edge whose start vertex is not stored. -/
theorem reachable_edge_without_endpoint :
    ∃ g', Reachable sampleDefault (editCalls Int) g' ∧
      ∃ y, g'.getEdge 1 = some y ∧ y.start_vertex = 0 ∧ g'.hasVertex 0 = false := by
  cases h : star.removeVertex 0 with
  | none => exact absurd h (by decide)
  | some g' =>
    refine ⟨g', ((star_removed_reachable h).mono freshStructural_le_structural).mono
      structural_le_edit, ?_⟩
    have h2 : (star.removeVertex 0).map
        (fun g1 => ((g1.getEdge 1).map (fun y => y.start_vertex), g1.hasVertex 0))
        = some (some 0, false) := by decide
    rw [h] at h2
    simp only [Option.map_some', Option.some.injEq, Prod.mk.injEq, Option.map_eq_some'] at h2
    obtain ⟨⟨y, hy, hy0⟩, hv⟩ := h2
    exact ⟨y, hy, hy0, hv⟩

/-- What a removal with a defined result leaves, in any state: once
`removeVertex(id)` has returned `hasVertex(id)` is false and `id` is not among
the ids `getAllVertexIds` puts in an empty vector; once `removeEdge(id)` has
returned `hasEdge(id)` is false and `id` is not among the ids `getAllEdgeIds`
puts in an empty vector. Both calls return in every state whose stored edges all
have their endpoints stored. -/
theorem removed_id_is_gone {P : Type} (g : SparseGraph P) (id : Int) :
    (∀ g', g.removeVertex id = some g' →
      g'.hasVertex id = false ∧ id ∉ g'.getAllVertexIds []) ∧
    (∀ g', g.removeEdge id = some g' →
      g'.hasEdge id = false ∧ id ∉ g'.getAllEdgeIds []) ∧
    (g.EndpointsStored → (∃ g', g.removeVertex id = some g') ∧
      ∃ g', g.removeEdge id = some g') := by
  have hv : ∀ g', g.removeVertex id = some g' → g'.hasVertex id = false := by
    intro g' h
    rw [SparseGraph.hasVertex_eq_false_iff]
    rcases SparseGraph.removeVertex_cases h with ⟨h0, rfl⟩ | ⟨x, g1, _, _, rfl⟩
    · exact h0
    · simp [IdMap.find_erase]
  have he : ∀ g', g.removeEdge id = some g' → g'.hasEdge id = false := by
    intro g' h
    rw [SparseGraph.hasEdge_eq_false_iff]
    rcases SparseGraph.removeEdge_cases h with ⟨h0, rfl⟩ | ⟨e, s, t, _, _, _, rfl⟩
    · exact h0
    · simp [SparseGraph.removeEdgeResult_efind]
  refine ⟨fun g' h => ⟨hv g' h, ?_⟩, fun g' h => ⟨he g' h, ?_⟩, fun hg =>
    ⟨SparseGraph.removeVertex_returns hg id, SparseGraph.removeEdge_returns hg id⟩⟩
  · intro hmem
    have h1 := hv g' h
    simp only [SparseGraph.getAllVertexIds, List.nil_append, IdMap.mem_keys_iff] at hmem
    unfold SparseGraph.hasVertex at h1
    rw [hmem] at h1
    exact Bool.noConfusion h1
  · intro hmem
    have h1 := he g' h
    simp only [SparseGraph.getAllEdgeIds, List.nil_append, IdMap.mem_keys_iff] at hmem
    unfold SparseGraph.hasEdge at h1
    rw [hmem] at h1
    exact Bool.noConfusion h1

theorem removed_id_is_gone_witness :
    (∃ g', oneEdge.removeVertex 0 = some g' ∧ g'.hasVertex 0 = false ∧
      g'.getAllVertexIds [] = [1] ∧ g'.getAllEdgeIds [] = [] ∧
      (g'.getVertex 1).map (fun x => x.edge_list) = some []) ∧
    (∃ g', oneEdge.removeEdge 0 = some g' ∧ g'.hasEdge 0 = false ∧
      (0 : Int) ∉ g'.getAllEdgeIds []) := by
  refine ⟨⟨_, rfl, ?_, by decide, by decide, by decide⟩, ?_⟩
  · exact ((removed_id_is_gone oneEdge 0).1 _ rfl).1
  · exact ⟨_, rfl, ((removed_id_is_gone oneEdge 0).2.1 _ rfl).1,
      ((removed_id_is_gone oneEdge 0).2.1 _ rfl).2⟩

/-! ## Invariants of the reachable states -/

/-- C3 (counterexample): `addVertex` stores the edge list its caller passes, so
one `addVertex` call on the empty graph reaches a state whose vertex `0` lists
the edge id `7` although no edge is stored under `7`. -/
theorem stray_edge_id_reachable :
    Reachable sampleDefault (editCalls Int) strayGraph ∧
    (strayGraph.getVertex 0).map (fun x => x.edge_list) = some [7] ∧
    strayGraph.hasEdge 7 = false :=
  ⟨Reachable.step (.addVertex strayVertex) Reachable.init ⟨trivial, trivial⟩ rfl,
    by decide, by decide⟩

/-- C3 (amended): in every state reached from the empty graph by `addVertex`
(given an empty edge list), `addEdge` (with existing endpoints), `removeEdge`,
`removeVertex`, `transformFrame` and `clear`, every edge id in the list of a
stored vertex `u` is stored in the edge store, and the edge stored under it has
`u` as its start vertex or as its end vertex. -/
theorem incident_edges_stored {P : Type} (dflt : GraphVertex P) (g : SparseGraph P)
    (hr : Reachable dflt (freshEditCalls P) g) (u : Int) (x : GraphVertex P)
    (hx : g.getVertex u = some x) (e : Int) (he : e ∈ x.edge_list) :
    ∃ y, g.getEdge e = some y ∧ (y.start_vertex = u ∨ y.end_vertex = u) :=
  (SparseGraph.mem_edge_list_iff hr.wellLinked hx e).1 he

theorem incident_edges_stored_witness :
    Reachable sampleDefault (freshEditCalls Int) star ∧
    star.getVertex 3 = some { vertex_id := 3, point := 13, edge_list := [2] } ∧
    ∃ y, star.getEdge 2 = some y ∧ (y.start_vertex = 3 ∨ y.end_vertex = 3) :=
  ⟨star_reachable.mono freshStructural_le_freshEdit, rfl,
    incident_edges_stored sampleDefault star (star_reachable.mono freshStructural_le_freshEdit)
      3 { vertex_id := 3, point := 13, edge_list := [2] } rfl 2 (by decide)⟩

/-- C4 (counterexample): vertex `0` was added with the edge list `[0]`, and the
edge later allocated under `0` joins the vertices `1` and `2`; the query finds
`1` from `0` but not `0` from `1`. -/
theorem skew_connected_asymmetric :
    Reachable sampleDefault (structuralCalls Int) skewGraph ∧
    skewGraph.hasVertex 0 = true ∧ skewGraph.hasVertex 1 = true ∧
    skewGraph.areVerticesDirectlyConnected 0 1 = some true ∧
    skewGraph.areVerticesDirectlyConnected 1 0 = some false :=
  ⟨Reachable.step (.addEdge (sampleEdge 1 2))
      (Reachable.step (.addVertex (sampleVertex 12))
        (Reachable.step (.addVertex (sampleVertex 11))
          (Reachable.step (.addVertex { vertex_id := -1, point := 10, edge_list := [0] })
            Reachable.init ⟨trivial, trivial⟩ rfl)
          ⟨trivial, trivial⟩ rfl)
        ⟨trivial, trivial⟩ rfl)
      ⟨trivial, ⟨rfl, rfl⟩⟩ rfl,
    by decide, by decide, by decide, by decide⟩

/-- C4 (amended): in every state reached from the empty graph by `addVertex`
(given an empty edge list), `addEdge` (with existing endpoints), `removeEdge`
and `removeVertex`, for all stored vertices `a` and `b` the queries
`areVerticesDirectlyConnected(a, b)` and `areVerticesDirectlyConnected(b, a)`
are both defined and give the same answer. -/
theorem connected_symmetric {P : Type} (dflt : GraphVertex P) (g : SparseGraph P)
    (hr : Reachable dflt (freshStructuralCalls P) g) (a b : Int)
    (ha : g.hasVertex a = true) (hb : g.hasVertex b = true) :
    ∃ c, g.areVerticesDirectlyConnected a b = some c ∧
      g.areVerticesDirectlyConnected b a = some c := by
  have hg := (hr.mono freshStructural_le_freshEdit).wellLinked
  obtain ⟨xa, hxa⟩ := (SparseGraph.hasVertex_eq_true_iff g a).1 ha
  obtain ⟨xb, hxb⟩ := (SparseGraph.hasVertex_eq_true_iff g b).1 hb
  obtain ⟨c, hc, hiff⟩ := SparseGraph.connected_iff_joined hg hxa b
  obtain ⟨c', hc', hiff'⟩ := SparseGraph.connected_iff_joined hg hxb a
  refine ⟨c, hc, ?_⟩
  rw [hc']
  congr 1
  rw [Bool.eq_iff_iff, hiff, hiff']
  exact (SparseGraph.joined_comm g a b).symm

theorem connected_symmetric_witness :
    star.hasVertex 0 = true ∧ star.hasVertex 2 = true ∧
    star.areVerticesDirectlyConnected 0 2 = some true ∧
    ∃ c, star.areVerticesDirectlyConnected 0 2 = some c ∧
      star.areVerticesDirectlyConnected 2 0 = some c :=
  ⟨rfl, rfl, by decide, connected_symmetric sampleDefault star star_reachable 0 2 rfl rfl⟩

/-! ## Transformation, clearing, enumeration and serialized inserts -/

/-- C11: for transforms `T1`, `T2` and a transform `T21` acting on points as
`T2` after `T1`, `transformFrame(T1)` followed by `transformFrame(T2)` gives
the same graph state as the single `transformFrame(T21)`. -/
theorem transformFrame_compose {P : Type} (g : SparseGraph P) (T1 T2 T21 : P → P)
    (hcomp : ∀ p, T21 p = T2 (T1 p)) :
    (g.transformFrame T1).transformFrame T2 = g.transformFrame T21 := by
  have h : T21 = fun p => T2 (T1 p) := funext hcomp
  subst h
  simp only [SparseGraph.transformFrame, IdMap.mapValues_mapValues]

theorem transformFrame_compose_witness :
    (∀ p : Int, (fun q => 2 * q + 2) p = (fun q => 2 * q) ((fun q => q + 1) p)) ∧
    (oneEdge.transformFrame (fun q => q + 1)).transformFrame (fun q => 2 * q) =
      oneEdge.transformFrame (fun q => 2 * q + 2) :=
  ⟨fun p => by ring,
    transformFrame_compose oneEdge (fun q => q + 1) (fun q => 2 * q) (fun q => 2 * q + 2)
      (fun p => by ring)⟩

/-- C12: `transformFrame(T)` keeps the edge caches consistent with the vertex
points, and it changes nothing but points: every vertex keeps its id and edge
list, every edge its id and endpoint ids, both counters stay, and the stored
vertex ids and edge ids are the same as before. -/
theorem transformFrame_contract {P : Type} (g : SparseGraph P) (T : P → P) :
    (g.CacheConsistent → (g.transformFrame T).CacheConsistent) ∧
    (∀ k, (g.transformFrame T).getVertex k =
      (g.getVertex k).map (fun x => { x with point := T x.point })) ∧
    (∀ k, (g.transformFrame T).getEdge k =
      (g.getEdge k).map (fun y =>
        { y with start_point := T y.start_point, end_point := T y.end_point })) ∧
    (g.transformFrame T).next_vertex_id_ = g.next_vertex_id_ ∧
    (g.transformFrame T).next_edge_id_ = g.next_edge_id_ ∧
    (g.transformFrame T).getAllVertexIds [] = g.getAllVertexIds [] ∧
    (g.transformFrame T).getAllEdgeIds [] = g.getAllEdgeIds [] := by
  have hv : ∀ k, (g.transformFrame T).getVertex k =
      (g.getVertex k).map (fun x => { x with point := T x.point }) := fun k =>
    IdMap.find_mapValues _ _ _
  have he : ∀ k, (g.transformFrame T).getEdge k =
      (g.getEdge k).map (fun y =>
        { y with start_point := T y.start_point, end_point := T y.end_point }) := fun k =>
    IdMap.find_mapValues _ _ _
  refine ⟨?_, hv, he, rfl, rfl, ?_, ?_⟩
  · intro hc e y hy
    rw [he] at hy
    cases hy0 : g.getEdge e with
    | none => simp [hy0] at hy
    | some y0 =>
      simp only [hy0, Option.map_some', Option.some.injEq] at hy
      subst hy
      obtain ⟨h1, h2⟩ := hc e y0 hy0
      rw [hv, hv]
      simp only [Option.map_map]
      constructor
      · cases hs : g.getVertex y0.start_vertex with
        | none => simp [hs] at h1
        | some s =>
          simp only [hs, Option.map_some', Option.some.injEq] at h1
          simp [h1]
      · cases ht : g.getVertex y0.end_vertex with
        | none => simp [ht] at h2
        | some t =>
          simp only [ht, Option.map_some', Option.some.injEq] at h2
          simp [h2]
  · simp only [SparseGraph.getAllVertexIds, SparseGraph.transformFrame, IdMap.keys_mapValues]
  · simp only [SparseGraph.getAllEdgeIds, SparseGraph.transformFrame, IdMap.keys_mapValues]

theorem oneEdge_cacheConsistent : oneEdge.CacheConsistent := by
  intro e y hy
  have hall : ∀ p ∈ oneEdge.edge_map_.entries,
      (oneEdge.getVertex p.2.start_vertex).map (fun x => x.point) = some p.2.start_point ∧
      (oneEdge.getVertex p.2.end_vertex).map (fun x => x.point) = some p.2.end_point := by
    decide
  exact hall (e, y) (IdMap.mem_of_find hy)

theorem transformFrame_contract_witness :
    oneEdge.CacheConsistent ∧ (oneEdge.transformFrame (fun q => q + 1)).CacheConsistent ∧
    (oneEdge.transformFrame (fun q => q + 1)).getEdge 0 =
      some { edge_id := 0, start_vertex := 0, end_vertex := 1,
             start_point := 11, end_point := 12 } :=
  ⟨oneEdge_cacheConsistent,
    (transformFrame_contract oneEdge (fun q => q + 1)).1 oneEdge_cacheConsistent, rfl⟩

/-- C13: after `clear()` the state is that of a freshly constructed graph,
whatever was stored or loaded before: `getAllVertexIds` and `getAllEdgeIds`
produce nothing, and the next `addVertex` and the next `addEdge` return `0`. -/
theorem clear_contract {P : Type} (dflt : GraphVertex P) (g : SparseGraph P)
    (v : GraphVertex P) (e : GraphEdge P) :
    g.clear = SparseGraph.empty ∧
    g.clear.getAllVertexIds [] = [] ∧ g.clear.getAllEdgeIds [] = [] ∧
    (g.clear.addVertex v).1 = 0 ∧ (g.clear.addEdge dflt e).1 = 0 ∧
    (∀ id, g.clear.hasVertex id = false ∧ g.clear.hasEdge id = false) :=
  ⟨rfl, rfl, rfl, rfl, rfl, fun _ => ⟨rfl, rfl⟩⟩

/-- C14: the ids `getAllVertexIds` puts in an empty vector are strictly
ascending, without duplicates, and are exactly the ids for which `hasVertex` is
true; the same holds for `getAllEdgeIds` and `hasEdge`. Both are functions of
the state and change nothing. -/
theorem getAllIds_contract {P : Type} (g : SparseGraph P) :
    ((g.getAllVertexIds []).Pairwise (· < ·) ∧ (g.getAllVertexIds []).Nodup ∧
      ∀ id, id ∈ g.getAllVertexIds [] ↔ g.hasVertex id = true) ∧
    ((g.getAllEdgeIds []).Pairwise (· < ·) ∧ (g.getAllEdgeIds []).Nodup ∧
      ∀ id, id ∈ g.getAllEdgeIds [] ↔ g.hasEdge id = true) := by
  simp only [SparseGraph.getAllVertexIds, SparseGraph.getAllEdgeIds, List.nil_append]
  exact ⟨⟨IdMap.keys_pairwise _, (IdMap.keys_pairwise _).imp ne_of_lt,
      fun id => IdMap.mem_keys_iff _ id⟩,
    ⟨IdMap.keys_pairwise _, (IdMap.keys_pairwise _).imp ne_of_lt,
      fun id => IdMap.mem_keys_iff _ id⟩⟩

/-- C15: `addSerializedVertex(v)` makes the vertex store hold exactly `v` under
`v.vertex_id` and changes no other vertex, no edge and no counter;
`addSerializedEdge(e)` makes the edge store hold exactly `e` under `e.edge_id`
and changes no other edge, no vertex (so no edge list) and no counter. -/
theorem addSerialized_contract {P : Type} (g : SparseGraph P) (v : GraphVertex P)
    (e : GraphEdge P) :
    ((g.addSerializedVertex v).getVertex v.vertex_id = some v ∧
      (∀ k, k ≠ v.vertex_id → (g.addSerializedVertex v).getVertex k = g.getVertex k) ∧
      (g.addSerializedVertex v).edge_map_ = g.edge_map_ ∧
      (g.addSerializedVertex v).next_vertex_id_ = g.next_vertex_id_ ∧
      (g.addSerializedVertex v).next_edge_id_ = g.next_edge_id_) ∧
    ((g.addSerializedEdge e).getEdge e.edge_id = some e ∧
      (∀ k, k ≠ e.edge_id → (g.addSerializedEdge e).getEdge k = g.getEdge k) ∧
      (g.addSerializedEdge e).vertex_map_ = g.vertex_map_ ∧
      (g.addSerializedEdge e).next_vertex_id_ = g.next_vertex_id_ ∧
      (g.addSerializedEdge e).next_edge_id_ = g.next_edge_id_) := by
  refine ⟨⟨?_, ?_, rfl, rfl, rfl⟩, ⟨?_, ?_, rfl, rfl, rfl⟩⟩
  · simp [SparseGraph.addSerializedVertex, SparseGraph.getVertex, IdMap.find_set]
  · intro k hk
    simp [SparseGraph.addSerializedVertex, SparseGraph.getVertex, IdMap.find_set, hk]
  · simp [SparseGraph.addSerializedEdge, SparseGraph.getEdge, IdMap.find_set]
  · intro k hk
    simp [SparseGraph.addSerializedEdge, SparseGraph.getEdge, IdMap.find_set, hk]

theorem addSerialized_contract_witness :
    (oneEdge.addSerializedVertex { vertex_id := 0, point := 5, edge_list := [9] }).getVertex 0
      = some { vertex_id := 0, point := 5, edge_list := [9] } ∧
    (oneEdge.addSerializedVertex { vertex_id := 0, point := 5, edge_list := [9] }).getVertex 1
      = oneEdge.getVertex 1 ∧
    (oneEdge.addSerializedEdge (sampleEdge 3 4)).getEdge 0 = oneEdge.getEdge 0 :=
  ⟨(addSerialized_contract oneEdge { vertex_id := 0, point := 5, edge_list := [9] }
      (sampleEdge 3 4)).1.1,
    (addSerialized_contract oneEdge { vertex_id := 0, point := 5, edge_list := [9] }
      (sampleEdge 3 4)).1.2.1 1 (by decide),
    (addSerialized_contract oneEdge { vertex_id := 0, point := 5, edge_list := [9] }
      (sampleEdge 3 4)).2.2.1 0 (by decide)⟩

/-- C16: ids handed out by the allocating inserts can collide with loaded ones.
On the empty graph, after `addSerializedVertex` of a vertex with `vertex_id = 0`
the next `addVertex(w)` returns `0`, for which `hasVertex` was already true. On
a graph of two freshly added vertices, after `addSerializedEdge` of an edge with
`edge_id = 0` between them the next `addEdge(e)` returns `0`, for which
`hasEdge` was already true. -/
theorem allocation_collides_with_loaded {P : Type} (dflt : GraphVertex P) (p : P)
    (l : List Int) (w v0 v1 : GraphVertex P) (q r : P) (e : GraphEdge P) :
    ((SparseGraph.empty.addSerializedVertex
        { vertex_id := 0, point := p, edge_list := l }).hasVertex 0 = true ∧
      ((SparseGraph.empty.addSerializedVertex
        { vertex_id := 0, point := p, edge_list := l }).addVertex w).1 = 0) ∧
    ((((SparseGraph.empty.addVertex v0).2.addVertex v1).2.addSerializedEdge
        { edge_id := 0, start_vertex := 0, end_vertex := 1, start_point := q,
          end_point := r }).hasVertex 0 = true ∧
      (((SparseGraph.empty.addVertex v0).2.addVertex v1).2.addSerializedEdge
        { edge_id := 0, start_vertex := 0, end_vertex := 1, start_point := q,
          end_point := r }).hasVertex 1 = true ∧
      (((SparseGraph.empty.addVertex v0).2.addVertex v1).2.addSerializedEdge
        { edge_id := 0, start_vertex := 0, end_vertex := 1, start_point := q,
          end_point := r }).hasEdge 0 = true ∧
      ((((SparseGraph.empty.addVertex v0).2.addVertex v1).2.addSerializedEdge
        { edge_id := 0, start_vertex := 0, end_vertex := 1, start_point := q,
          end_point := r }).addEdge dflt e).1 = 0) :=
  ⟨⟨rfl, rfl⟩, ⟨rfl, rfl, rfl, rfl⟩⟩

/-! ## Adjacency queries in reachable states -/

theorem freshBuild_le_freshEdit {P : Type} (g : SparseGraph P) (op : Op P)
    (h : freshBuildCalls P g op) : freshEditCalls P g op := by
  obtain ⟨h1, h2, h3⟩ := h
  refine ⟨?_, h2, h3⟩
  cases op <;> simp_all [Op.isEdit, Op.isBuild]

theorem star_reachable_build : Reachable sampleDefault (freshBuildCalls Int) star :=
  Reachable.step (.addEdge (sampleEdge 0 3))
    (Reachable.step (.addEdge (sampleEdge 0 2))
      (Reachable.step (.addEdge (sampleEdge 0 1))
        (Reachable.step (.addVertex (sampleVertex 13))
          (Reachable.step (.addVertex (sampleVertex 12))
            (Reachable.step (.addVertex (sampleVertex 11))
              (Reachable.step (.addVertex (sampleVertex 10)) Reachable.init
                ⟨trivial, trivial, rfl⟩ rfl)
              ⟨trivial, trivial, rfl⟩ rfl)
            ⟨trivial, trivial, rfl⟩ rfl)
          ⟨trivial, trivial, rfl⟩ rfl)
        ⟨trivial, ⟨rfl, rfl⟩, trivial⟩ rfl)
      ⟨trivial, ⟨rfl, rfl⟩, trivial⟩ rfl)
    ⟨trivial, ⟨rfl, rfl⟩, trivial⟩ rfl

theorem skewGraph_reachable_build : Reachable sampleDefault (buildCalls Int) skewGraph :=
  Reachable.step (.addEdge (sampleEdge 1 2))
    (Reachable.step (.addVertex (sampleVertex 12))
      (Reachable.step (.addVertex (sampleVertex 11))
        (Reachable.step (.addVertex { vertex_id := -1, point := 10, edge_list := [0] })
          Reachable.init ⟨trivial, trivial⟩ rfl)
        ⟨trivial, trivial⟩ rfl)
      ⟨trivial, trivial⟩ rfl)
    ⟨trivial, ⟨rfl, rfl⟩⟩ rfl

/-- C17 (counterexample): in the graph built by `addVertex` of a vertex with the
edge list `[0]`, two more `addVertex` calls and `addEdge(1 -> 2)`, the query
reports the vertices `0` and `1` as directly connected although no stored edge
joins them. -/
theorem skew_connected_without_edge :
    Reachable sampleDefault (buildCalls Int) skewGraph ∧
    skewGraph.hasVertex 0 = true ∧ skewGraph.hasVertex 1 = true ∧
    skewGraph.areVerticesDirectlyConnected 0 1 = some true ∧
    ∀ e y, skewGraph.getEdge e = some y →
      ¬ ((y.start_vertex = 0 ∧ y.end_vertex = 1) ∨ (y.start_vertex = 1 ∧ y.end_vertex = 0)) := by
  refine ⟨skewGraph_reachable_build, by decide, by decide, by decide, ?_⟩
  intro e y hy
  have hall : ∀ p ∈ skewGraph.edge_map_.entries,
      ¬ ((p.2.start_vertex = 0 ∧ p.2.end_vertex = 1) ∨
         (p.2.start_vertex = 1 ∧ p.2.end_vertex = 0)) := by decide
  exact hall (e, y) (IdMap.mem_of_find hy)

/-- C17 (amended): in every state reached from the empty graph by `addVertex`
(given an empty edge list), `addEdge` (with existing endpoints) and
`removeEdge`, for a stored vertex `a` and any `b ≠ a` the query
`areVerticesDirectlyConnected(a, b)` is defined, and it is true exactly when the
edge store holds an edge from `a` to `b` or from `b` to `a`. -/
theorem connected_iff_edge_between {P : Type} (dflt : GraphVertex P) (g : SparseGraph P)
    (hr : Reachable dflt (freshBuildCalls P) g) (a b : Int)
    (ha : g.hasVertex a = true) (hab : a ≠ b) :
    ∃ c, g.areVerticesDirectlyConnected a b = some c ∧
      (c = true ↔ ∃ e y, g.getEdge e = some y ∧
        ((y.start_vertex = a ∧ y.end_vertex = b) ∨
         (y.start_vertex = b ∧ y.end_vertex = a))) := by
  have hg := (hr.mono freshBuild_le_freshEdit).wellLinked
  obtain ⟨xa, hxa⟩ := (SparseGraph.hasVertex_eq_true_iff g a).1 ha
  obtain ⟨c, hc, hiff⟩ := SparseGraph.connected_iff_joined hg hxa b
  refine ⟨c, hc, ?_⟩
  rw [hiff]
  unfold SparseGraph.joined SparseGraph.getEdge
  constructor
  · rintro ⟨e, y, hy, h1, h2⟩
    refine ⟨e, y, hy, ?_⟩
    rcases h1 with h1 | h1 <;> rcases h2 with h2 | h2
    · exact absurd (h1.symm.trans h2) hab
    · exact Or.inl ⟨h1, h2⟩
    · exact Or.inr ⟨h2, h1⟩
    · exact absurd (h1.symm.trans h2) hab
  · rintro ⟨e, y, hy, ⟨h1, h2⟩ | ⟨h1, h2⟩⟩
    · exact ⟨e, y, hy, Or.inl h1, Or.inr h2⟩
    · exact ⟨e, y, hy, Or.inr h2, Or.inl h1⟩

theorem connected_iff_edge_between_witness :
    star.hasVertex 2 = true ∧ star.areVerticesDirectlyConnected 2 0 = some true ∧
    ∃ c, star.areVerticesDirectlyConnected 2 0 = some c ∧
      (c = true ↔ ∃ e y, star.getEdge e = some y ∧
        ((y.start_vertex = 2 ∧ y.end_vertex = 0) ∨
         (y.start_vertex = 0 ∧ y.end_vertex = 2))) :=
  ⟨rfl, by decide,
    connected_iff_edge_between sampleDefault star star_reachable_build 2 0 rfl (by decide)⟩

/-- C18 (counterexample): in the graph built by `addVertex` of a vertex with the
edge list `[0]`, two more `addVertex` calls and `addEdge(1 -> 2)`, vertex `0`
has a non-empty edge list, yet the query does not report it as connected to
itself. -/
theorem skew_self_query_false :
    Reachable sampleDefault (buildCalls Int) skewGraph ∧
    (skewGraph.getVertex 0).map (fun x => x.edge_list) = some [0] ∧
    skewGraph.areVerticesDirectlyConnected 0 0 = some false :=
  ⟨skewGraph_reachable_build, by decide, by decide⟩

/-- C18 (amended): in every state reached from the empty graph by `addVertex`
(given an empty edge list), `addEdge` (with existing endpoints) and
`removeEdge`, for every stored vertex `a` the query
`areVerticesDirectlyConnected(a, a)` is defined, and it is true exactly when the
edge list of `a` is not empty; a self-loop is not needed. -/
theorem connected_self_iff_nonempty {P : Type} (dflt : GraphVertex P) (g : SparseGraph P)
    (hr : Reachable dflt (freshBuildCalls P) g) (a : Int) (x : GraphVertex P)
    (hx : g.getVertex a = some x) :
    ∃ c, g.areVerticesDirectlyConnected a a = some c ∧ (c = true ↔ x.edge_list ≠ []) := by
  have hg := (hr.mono freshBuild_le_freshEdit).wellLinked
  obtain ⟨c, hc, hiff⟩ := SparseGraph.connected_iff_joined hg hx a
  refine ⟨c, hc, ?_⟩
  rw [hiff]
  unfold SparseGraph.joined
  constructor
  · rintro ⟨e, y, hy, h1, _⟩
    exact List.ne_nil_of_mem ((SparseGraph.mem_edge_list_iff hg hx e).2 ⟨y, hy, h1⟩)
  · intro hne
    obtain ⟨e, he⟩ := List.exists_mem_of_ne_nil _ hne
    obtain ⟨y, hy, h1⟩ := (SparseGraph.mem_edge_list_iff hg hx e).1 he
    exact ⟨e, y, hy, h1, h1⟩

theorem connected_self_iff_nonempty_witness :
    star.getVertex 1 = some { vertex_id := 1, point := 11, edge_list := [0] } ∧
    (star.getEdge 0).map (fun y => (y.start_vertex, y.end_vertex)) = some (0, 1) ∧
    star.areVerticesDirectlyConnected 1 1 = some true ∧
    ∃ c, star.areVerticesDirectlyConnected 1 1 = some c ∧
      (c = true ↔ ([0] : List Int) ≠ []) :=
  ⟨rfl, by decide, by decide,
    connected_self_iff_nonempty sampleDefault star star_reachable_build 1
      { vertex_id := 1, point := 11, edge_list := [0] } rfl⟩

/-! ## `addEdge` in any state, and its round trip with `removeEdge` -/

namespace SparseGraph

variable {P : Type}

theorem eraseFirst_append_self {id : Int} {l : List Int} (h : id ∉ l) (r : List Int) :
    eraseFirst id (l ++ id :: r) = l ++ r := by
  rw [eraseFirst_eq_erase, List.erase_append_right _ h, List.erase_cons_head]

/-- Pushing `n` for each end and then erasing its first occurrence for each end
gives back a list that did not contain `n`. -/
theorem eraseIf_push {n : Int} {l : List Int} (h : n ∉ l) (c1 c2 : Prop) [Decidable c1]
    [Decidable c2] :
    eraseIf c2 n (eraseIf c1 n (l ++ (if c1 then [n] else []) ++ (if c2 then [n] else [])))
      = l := by
  by_cases h1 : c1 <;> by_cases h2 : c2
  · simp only [eraseIf, h1, h2, if_true]
    have hl : l ++ [n] ++ [n] = l ++ n :: [n] := by simp
    rw [hl, eraseFirst_append_self h, eraseFirst_append_self h]
    simp
  · simp only [eraseIf, h1, h2, if_true, if_false, List.append_nil]
    rw [eraseFirst_append_self h]
    simp
  · simp only [eraseIf, h1, h2, if_true, if_false, List.append_nil]
    rw [eraseFirst_append_self h]
    simp
  · simp [eraseIf, h1, h2]

/-- The vertex map after `addEdge` in any state: a missing endpoint is first
created as a copy of the default vertex, then the new id is pushed once for
each end of the edge that the vertex is. -/
theorem addEdge_vfind_any (dflt : GraphVertex P) (g : SparseGraph P) (e : GraphEdge P)
    (k : Int) :
    (g.addEdge dflt e).2.vertex_map_.find k =
      (if k = e.start_vertex ∨ k = e.end_vertex then
          some ((g.vertex_map_.find k).getD dflt)
        else g.vertex_map_.find k).map (fun x =>
        { x with edge_list := x.edge_list
            ++ (if k = e.start_vertex then [g.next_edge_id_] else [])
            ++ (if k = e.end_vertex then [g.next_edge_id_] else []) }) := by
  simp only [addEdge, IdMap.find_modify, IdMap.find_touch]
  by_cases h1 : k = e.start_vertex <;> by_cases h2 : k = e.end_vertex
  · subst h1
    have h3 : e.end_vertex = e.start_vertex := h2.symm
    simp [h3]
  · subst h1
    have h3 : ¬ e.start_vertex = e.end_vertex := h2
    have h4 : ¬ e.end_vertex = e.start_vertex := fun h => h2 h.symm
    simp [h3, h4]
  · subst h2
    simp [h1]
  · cases h : g.vertex_map_.find k <;> simp [h1, h2, h]

/-- The edge stored under the allocated id after `addEdge` in a state where that
id was free. -/
theorem addEdge_efind_new (dflt : GraphVertex P) (g : SparseGraph P) (e : GraphEdge P)
    (hfree : g.edge_map_.find g.next_edge_id_ = none) :
    (g.addEdge dflt e).2.edge_map_.find g.next_edge_id_ =
      some { edge_id := g.next_edge_id_, start_vertex := e.start_vertex,
             end_vertex := e.end_vertex,
             start_point := ((g.vertex_map_.find e.start_vertex).getD dflt).point,
             end_point := ((g.vertex_map_.find e.end_vertex).getD dflt).point } := by
  have hvs : (((g.addEdge dflt e).2.vertex_map_.find e.start_vertex).getD dflt).point
      = ((g.vertex_map_.find e.start_vertex).getD dflt).point := by
    rw [addEdge_vfind_any]; simp
  have hvt : (((g.addEdge dflt e).2.vertex_map_.find e.end_vertex).getD dflt).point
      = ((g.vertex_map_.find e.end_vertex).getD dflt).point := by
    rw [addEdge_vfind_any]; simp
  have hem : (g.addEdge dflt e).2.edge_map_ =
      (((g.edge_map_.emplace g.next_edge_id_ e).modify g.next_edge_id_
          (fun x => { x with edge_id := g.next_edge_id_ })).modify g.next_edge_id_
          (fun x => { x with start_point :=
            (((g.addEdge dflt e).2.vertex_map_.find e.start_vertex).getD dflt).point })).modify
          g.next_edge_id_
          (fun x => { x with end_point :=
            (((g.addEdge dflt e).2.vertex_map_.find e.end_vertex).getD dflt).point }) := rfl
  rw [hem, hvs, hvt]
  simp [IdMap.find_modify, IdMap.find_emplace, hfree]

/-- The edge map after `addEdge` in any state. Under the allocated id lies the
edge that `emplace` left there, which is `e` when the id was free and the edge
stored before otherwise, with `edge_id` set to the allocated id and both points
overwritten by the points of the endpoint vertices of `e`. -/
theorem addEdge_efind_any (dflt : GraphVertex P) (g : SparseGraph P) (e : GraphEdge P)
    (k : Int) :
    (g.addEdge dflt e).2.edge_map_.find k =
      if k = g.next_edge_id_ then
        some { edge_id := g.next_edge_id_,
               start_vertex := ((g.edge_map_.find g.next_edge_id_).getD e).start_vertex,
               end_vertex := ((g.edge_map_.find g.next_edge_id_).getD e).end_vertex,
               start_point := ((g.vertex_map_.find e.start_vertex).getD dflt).point,
               end_point := ((g.vertex_map_.find e.end_vertex).getD dflt).point }
      else g.edge_map_.find k := by
  have hvs : (((g.addEdge dflt e).2.vertex_map_.find e.start_vertex).getD dflt).point
      = ((g.vertex_map_.find e.start_vertex).getD dflt).point := by
    rw [addEdge_vfind_any]; simp
  have hvt : (((g.addEdge dflt e).2.vertex_map_.find e.end_vertex).getD dflt).point
      = ((g.vertex_map_.find e.end_vertex).getD dflt).point := by
    rw [addEdge_vfind_any]; simp
  have hem : (g.addEdge dflt e).2.edge_map_ =
      (((g.edge_map_.emplace g.next_edge_id_ e).modify g.next_edge_id_
          (fun x => { x with edge_id := g.next_edge_id_ })).modify g.next_edge_id_
          (fun x => { x with start_point :=
            (((g.addEdge dflt e).2.vertex_map_.find e.start_vertex).getD dflt).point })).modify
          g.next_edge_id_
          (fun x => { x with end_point :=
            (((g.addEdge dflt e).2.vertex_map_.find e.end_vertex).getD dflt).point }) := rfl
  rw [hem, hvs, hvt]
  simp only [IdMap.find_modify, IdMap.find_emplace]
  by_cases h : k = g.next_edge_id_
  · simp [h]
  · simp [h]

theorem addEdge_hasEdge (dflt : GraphVertex P) (g : SparseGraph P) (e : GraphEdge P) :
    (g.addEdge dflt e).2.hasEdge g.next_edge_id_ = true := by
  rw [hasEdge_eq_true_iff]
  simp only [addEdge, IdMap.find_modify, IdMap.find_emplace, if_true, Option.map_some']
  exact ⟨_, rfl⟩

end SparseGraph

/-- C19: when both endpoints of `e` are stored (as `s` and `t`, possibly the
same vertex) and the next edge id is neither in the edge store nor in the edge
list of `s` or of `t`, then `addEdge(e)` followed by `removeEdge` of the returned
id returns and leaves the vertex store and the edge store exactly as before;
the vertex counter is unchanged and the edge counter is one higher. -/
theorem addEdge_removeEdge_roundtrip {P : Type} (dflt : GraphVertex P) (g : SparseGraph P)
    (e : GraphEdge P) (s t : GraphVertex P)
    (hs : g.getVertex e.start_vertex = some s) (ht : g.getVertex e.end_vertex = some t)
    (hfree : g.hasEdge g.next_edge_id_ = false)
    (hns : g.next_edge_id_ ∉ s.edge_list) (hnt : g.next_edge_id_ ∉ t.edge_list) :
    ∃ g', (g.addEdge dflt e).2.removeEdge (g.addEdge dflt e).1 = some g' ∧
      g'.vertex_map_ = g.vertex_map_ ∧ g'.edge_map_ = g.edge_map_ ∧
      g'.next_vertex_id_ = g.next_vertex_id_ ∧
      g'.next_edge_id_ = g.next_edge_id_ + 1 := by
  have hfree' := (SparseGraph.hasEdge_eq_false_iff g _).1 hfree
  unfold SparseGraph.getVertex at hs ht
  rw [SparseGraph.addEdge_fst]
  have he1 := SparseGraph.addEdge_efind dflt g e hs ht hfree' g.next_edge_id_
  rw [if_pos rfl] at he1
  have hs1 := SparseGraph.addEdge_vfind dflt g e hs ht e.start_vertex
  have ht1 := SparseGraph.addEdge_vfind dflt g e hs ht e.end_vertex
  rw [hs] at hs1
  rw [ht] at ht1
  refine ⟨_, SparseGraph.removeEdge_of_stored he1 hs1 ht1, ?_, ?_, rfl, rfl⟩
  · apply IdMap.ext_find
    intro k
    rw [SparseGraph.removeEdgeResult_vfind, SparseGraph.addEdge_vfind dflt g e hs ht]
    cases hk : g.vertex_map_.find k with
    | none => rfl
    | some x =>
      simp only [Option.map_some', Option.some.injEq]
      by_cases h1 : k = e.start_vertex
      · have hx : x = s := by
          rw [h1, hs] at hk
          exact (Option.some.inj hk).symm
        subst hx
        rw [SparseGraph.eraseIf_push hns]
      · by_cases h2 : k = e.end_vertex
        · have hx : x = t := by
            rw [h2, ht] at hk
            exact (Option.some.inj hk).symm
          subst hx
          rw [SparseGraph.eraseIf_push hnt]
        · simp [eraseIf, h1, h2]
  · apply IdMap.ext_find
    intro k
    rw [SparseGraph.removeEdgeResult_efind, SparseGraph.addEdge_efind dflt g e hs ht hfree']
    by_cases hk : k = g.next_edge_id_
    · rw [if_pos hk, hk, hfree']
    · rw [if_neg hk, if_neg hk]

theorem addEdge_removeEdge_roundtrip_witness :
    (twoVertices.addEdge sampleDefault (sampleEdge 0 0)).1 = 0 ∧
    ((twoVertices.addEdge sampleDefault (sampleEdge 0 0)).2.getVertex 0).map
      (fun x => x.edge_list) = some [0, 0] ∧
    ∃ g', (twoVertices.addEdge sampleDefault (sampleEdge 0 0)).2.removeEdge
        (twoVertices.addEdge sampleDefault (sampleEdge 0 0)).1 = some g' ∧
      g'.vertex_map_ = twoVertices.vertex_map_ ∧ g'.edge_map_ = twoVertices.edge_map_ ∧
      g'.next_vertex_id_ = twoVertices.next_vertex_id_ ∧
      g'.next_edge_id_ = twoVertices.next_edge_id_ + 1 :=
  ⟨rfl, rfl,
    addEdge_removeEdge_roundtrip sampleDefault twoVertices (sampleEdge 0 0)
      { vertex_id := 0, point := 10, edge_list := [] }
      { vertex_id := 0, point := 10, edge_list := [] } rfl rfl rfl (by decide) (by decide)⟩

/-- C20 (counterexample): with an edge already loaded under id `0` and the edge
counter at `0`, `addEdge` of an edge from `1` to `2` (neither stored) returns `0`
and creates both vertices, but the edge stored under `0` afterwards still runs
from `5` to `6`: the given edge is not stored. -/
theorem addEdge_does_not_store :
    loadedEdge.hasVertex 1 = false ∧ loadedEdge.hasVertex 2 = false ∧
    (loadedEdge.addEdge sampleDefault (sampleEdge 1 2)).1 = 0 ∧
    ((loadedEdge.addEdge sampleDefault (sampleEdge 1 2)).2.getEdge 0).map
      (fun y => (y.start_vertex, y.end_vertex)) = some (5, 6) ∧
    ((sampleEdge 1 2).start_vertex, (sampleEdge 1 2).end_vertex) ≠ ((5 : Int), (6 : Int)) := by
  decide

/-- C20 (amended): in every state `addEdge(e)` returns the next edge id `n`
without failing, and both endpoint ids of `e` are stored vertices afterwards. An
endpoint id that was not a stored vertex now holds a default-constructed vertex
(whose own edge list is empty) with the edge list `[n]`, or `[n, n]` when both
endpoints are that same id. An edge is stored under `n` afterwards: when no edge
was stored under `n` before, it is `e` with `edge_id = n` and the points of the
two endpoint vertices; when an edge `w` was stored under `n` before, `e` is not
stored and the edge under `n` keeps the `start_vertex` and `end_vertex` of `w`,
with `edge_id = n` and both points overwritten by the points of the endpoint
vertices of `e`. Every other edge is unchanged. -/
theorem addEdge_missing_endpoint {P : Type} (dflt : GraphVertex P)
    (hd : dflt.edge_list = []) (g : SparseGraph P) (e : GraphEdge P) :
    (g.addEdge dflt e).1 = g.next_edge_id_ ∧
    (g.addEdge dflt e).2.hasEdge g.next_edge_id_ = true ∧
    (g.addEdge dflt e).2.hasVertex e.start_vertex = true ∧
    (g.addEdge dflt e).2.hasVertex e.end_vertex = true ∧
    (∀ k, k = e.start_vertex ∨ k = e.end_vertex → g.hasVertex k = false →
      (g.addEdge dflt e).2.getVertex k =
        some { dflt with edge_list :=
          if e.start_vertex = e.end_vertex then [g.next_edge_id_, g.next_edge_id_]
          else [g.next_edge_id_] }) ∧
    (g.addEdge dflt e).2.getEdge g.next_edge_id_ =
      some (match g.getEdge g.next_edge_id_ with
        | none =>
          { edge_id := g.next_edge_id_, start_vertex := e.start_vertex,
            end_vertex := e.end_vertex,
            start_point := ((g.getVertex e.start_vertex).getD dflt).point,
            end_point := ((g.getVertex e.end_vertex).getD dflt).point }
        | some w =>
          { edge_id := g.next_edge_id_, start_vertex := w.start_vertex,
            end_vertex := w.end_vertex,
            start_point := ((g.getVertex e.start_vertex).getD dflt).point,
            end_point := ((g.getVertex e.end_vertex).getD dflt).point }) ∧
    (∀ k, k ≠ g.next_edge_id_ → (g.addEdge dflt e).2.getEdge k = g.getEdge k) := by
  refine ⟨rfl, SparseGraph.addEdge_hasEdge dflt g e, ?_, ?_, ?_, ?_, ?_⟩
  · rw [SparseGraph.hasVertex_eq_true_iff, SparseGraph.addEdge_vfind_any]
    simp
  · rw [SparseGraph.hasVertex_eq_true_iff, SparseGraph.addEdge_vfind_any]
    simp
  · intro k hk hmiss
    have hnone := (SparseGraph.hasVertex_eq_false_iff g k).1 hmiss
    unfold SparseGraph.getVertex
    rw [SparseGraph.addEdge_vfind_any, if_pos hk, hnone]
    simp only [Option.getD_none, Option.map_some', hd, List.nil_append, Option.some.injEq]
    by_cases h1 : k = e.start_vertex <;> by_cases h2 : k = e.end_vertex
    · have h3 : e.start_vertex = e.end_vertex := h1.symm.trans h2
      simp [h1, h3]
    · have h3 : ¬ e.start_vertex = e.end_vertex := fun h => h2 (h1.trans h)
      simp [h1, h3]
    · have h3 : ¬ e.start_vertex = e.end_vertex := fun h => h1 (h2.trans h.symm)
      have h4 : ¬ e.end_vertex = e.start_vertex := fun h => h3 h.symm
      simp [h2, h3, h4]
    · exact absurd hk (by simp [h1, h2])
  · unfold SparseGraph.getEdge SparseGraph.getVertex
    rw [SparseGraph.addEdge_efind_any, if_pos rfl]
    cases g.edge_map_.find g.next_edge_id_ <;> rfl
  · intro k hk
    unfold SparseGraph.getEdge
    rw [SparseGraph.addEdge_efind_any, if_neg hk]

theorem addEdge_missing_endpoint_witness :
    twoVertices.hasVertex 7 = false ∧
    (twoVertices.addEdge sampleDefault (sampleEdge 7 7)).2.getVertex 7 =
      some { vertex_id := -1, point := 0, edge_list := [0, 0] } ∧
    (twoVertices.addEdge sampleDefault (sampleEdge 0 8)).2.getVertex 8 =
      some { vertex_id := -1, point := 0, edge_list := [0] } ∧
    (twoVertices.addEdge sampleDefault (sampleEdge 0 8)).2.getEdge 0 =
      some { edge_id := 0, start_vertex := 0, end_vertex := 8,
             start_point := 10, end_point := 0 } ∧
    (loadedEdge.addEdge sampleDefault (sampleEdge 1 2)).2.getEdge 0 =
      some { edge_id := 0, start_vertex := 5, end_vertex := 6,
             start_point := 0, end_point := 0 } ∧
    (loadedEdge.addEdge sampleDefault (sampleEdge 1 2)).2.getVertex 1 =
      some { vertex_id := -1, point := 0, edge_list := [0] } :=
  ⟨rfl,
    (addEdge_missing_endpoint sampleDefault rfl twoVertices (sampleEdge 7 7)).2.2.2.2.1 7
      (Or.inl rfl) rfl,
    (addEdge_missing_endpoint sampleDefault rfl twoVertices (sampleEdge 0 8)).2.2.2.2.1 8
      (Or.inr rfl) rfl,
    (addEdge_missing_endpoint sampleDefault rfl twoVertices (sampleEdge 0 8)).2.2.2.2.2.1,
    (addEdge_missing_endpoint sampleDefault rfl loadedEdge (sampleEdge 1 2)).2.2.2.2.2.1,
    (addEdge_missing_endpoint sampleDefault rfl loadedEdge (sampleEdge 1 2)).2.2.2.2.1 1
      (Or.inl rfl) rfl⟩

end Voxblox
